import Mathlib

/-!
Verification development for the `structstruck` flattening engine
(`src/imp.rs`).  Rust token streams (`proc_macro2`) are modelled by the
`Tok` type below; the engine's functions are translated one-for-one from
the source.  The external declaration-grammar parser (the `venial` crate,
an external collaborator of this engine) is modelled from the spec in a
later section.  Source spans are not modelled; error reporting is
modelled as emission of error-marker entries into the output stream.
-/

namespace Structstruck

/-- Delimiters of `proc_macro2::Group`. -/
inductive Delim where
  | paren
  | brace
  | bracket
  | invisible
deriving DecidableEq, Repr

/-- A `proc_macro2::TokenTree`: identifier, punctuation (with its spacing,
`joint = true` for `Spacing::Joint`), delimited group, or literal. -/
inductive Tok where
  | ident (s : String)
  | punct (c : Char) (joint : Bool)
  | group (d : Delim) (ts : List Tok)
  | lit (s : String)
deriving Repr

/-- `TypeTree` from the source: a token, or an angle-bracket group
`Group(open, children, optional close)`.  The open/close fields carry the
`<` and `>` punctuation tokens themselves. -/
inductive TypeTree where
  | group (o : Tok) (children : List TypeTree) (c : Option Tok)
  | token (t : Tok)
deriving Repr

/-- Is this token the punct `<` (any spacing)? -/
def isLt : Tok → Bool
  | .punct c _ => c = '<'
  | _ => false

/-- Is this token the punct `>` (any spacing)? -/
def isGt : Tok → Bool
  | .punct c _ => c = '>'
  | _ => false

/-- The final while-loop of `type_tree`: close and report every frame
still open at end of input. -/
def typeTreeFinish : List (Tok × List TypeTree) → List TypeTree →
    List String → List TypeTree × List String
  | [], current, errs => (current, errs)
  | (o, parent) :: stac, current, errs =>
      typeTreeFinish stac (parent ++ [TypeTree.group o current none])
        (errs ++ ["Unclosed group"])

/-- Worker for `type_tree`: the stack holds `(open token, tokens
accumulated at the enclosing level)` frames, exactly as in the source. -/
def typeTreeAux : List Tok → List (Tok × List TypeTree) → List TypeTree →
    List String → List TypeTree × List String
  | [], stac, current, errs => typeTreeFinish stac current errs
  | t :: ts, stac, current, errs =>
      if isLt t then
        typeTreeAux ts ((t, current) :: stac) [] errs
      else if isGt t then
        match stac with
        | (o, parent) :: stac' =>
            typeTreeAux ts stac' (parent ++ [TypeTree.group o current (some t)]) errs
        | [] => typeTreeAux ts [] (current ++ [TypeTree.token t]) (errs ++ ["Unexpected >"])
      else
        typeTreeAux ts stac (current ++ [TypeTree.token t]) errs

/-- `type_tree` from the source: bracket-aware tokenization of a type
expression.  Returns the tree and the error messages reported to `ret`. -/
def typeTree (args : List Tok) : List TypeTree × List String :=
  typeTreeAux args [] [] []

/-- `un_type_tree` from the source: reassemble a `TypeTree` level,
delegating group children to `f`. -/
def unTypeTree (tok : List TypeTree) (f : List TypeTree → List Tok) : List Tok :=
  tok.flatMap fun tt =>
    match tt with
    | .group o g c => o :: (f g ++ c.toList)
    | .token t => [t]

mutual

/-- One node of `un_tree_type`. -/
def unTreeTypeOne : TypeTree → List Tok
  | .group o g c => o :: (unTreeType g ++ c.toList)
  | .token t => [t]

/-- `un_tree_type` from the source: full recursive reassembly. -/
def unTreeType : List TypeTree → List Tok
  | [] => []
  | t :: rest => unTreeTypeOne t ++ unTreeType rest

end
def stackToks : List (Tok × List TypeTree) → List Tok
  | [] => []
  | (o, parent) :: stac => stackToks stac ++ unTreeType parent ++ [o]

def balancedAux : List Tok → Nat → Bool
  | [], d => d = 0
  | t :: ts, d =>
      if isLt t then balancedAux ts (d + 1)
      else if isGt t then
        match d with
        | 0 => false
        | d' + 1 => balancedAux ts d'
      else balancedAux ts d

/-- A token sequence contains no unmatched `<` or `>` brackets. -/
def balanced (ts : List Tok) : Bool := balancedAux ts 0

/-- On balanced input the tokenizer reports no errors: the stack length
tracks the depth counter exactly. -/
inductive AttributeValue where
  | group (d : Delim) (ts : List Tok)
  | eq (ts : List Tok)
  | empty
deriving Repr

/-- `venial::Attribute` (outer position): its path tokens and its value.
The `#` and the surrounding brackets are reconstructed on printing. -/
structure Attribute where
  path : List Tok
  value : AttributeValue
deriving Repr

/-- `venial::VisMarker`: first token (e.g. `pub`) and optional second
token (e.g. the `(crate)` group). -/
structure VisMarker where
  tok1 : Tok
  tok2 : Option Tok
deriving Repr

/-- `venial::GenericBound`: the colon token and the bound tokens. -/
structure GenericBound where
  tkColon : Tok
  tokens : List Tok
deriving Repr

/-- `venial::GenericParam`: optional kind marker (`tk_prefix`, e.g. the
lifetime tick punct or the `const` ident), the parameter name, and an
optional bound. -/
structure GenericParam where
  tkPfx : Option Tok
  name : String
  bound : Option GenericBound
deriving Repr

/-- `venial::GenericParamList`: `<`, punctuated parameters (each with its
optional trailing comma token), `>`. -/
structure GenericParamList where
  tkL : Tok
  params : List (GenericParam × Option Tok)
  tkR : Tok
deriving Repr

/-- `check_crate_attr` from the source: the attribute path is exactly
`structstruck::NAME` with the first colon `Joint` (the crate name
`CARGO_CRATE_NAME` is `structstruck`). -/
def checkCrateAttr (attr : Attribute) (attrName : String) : Bool :=
  match attr.path with
  | [.ident crat, .punct c1 j1, .punct c2 _, .ident a] =>
      crat == "structstruck" && c1 == ':' && j1 && c2 == ':' && a == attrName
  | _ => false

/-! ### Name synthesis -/

/-- Rust `char::to_ascii_uppercase`. -/
def toAsciiUpper (c : Char) : Char :=
  if 'a' ≤ c ∧ c ≤ 'z' then Char.ofNat (c.toNat - 32) else c

/-- Worker for `pascal_case`, with the `uppercase_next` flag. -/
def pascalCaseList : List Char → Bool → List Char
  | [], _ => []
  | c :: cs, up =>
      if c = '_' then pascalCaseList cs true
      else if up then toAsciiUpper c :: pascalCaseList cs false
      else c :: pascalCaseList cs false

/-- `pascal_case` from the source: capitalizes the first letter of each
word and the one after an underscore, keeping consecutive uppercase. -/
def pascalCase (s : String) : String := ⟨pascalCaseList s.data true⟩

/-- `NameHints` from the source. -/
structure NameHints where
  long : Bool
  parentName : String
  variantName : Option String
  fieldName : Option String
deriving Repr

/-- `NameHints::from`: consume `structstruck::long_names` marker
attributes (returning the filtered attribute list) and record whether any
was present. -/
def NameHints.fromAttrs (parentName : String) (attributes : List Attribute) :
    NameHints × List Attribute :=
  let long := attributes.any fun attr => checkCrateAttr attr "long_names"
  let attributes := attributes.filter fun attr => !checkCrateAttr attr "long_names"
  (⟨long, parentName, none, none⟩, attributes)

/-- `NameHints::get_name_hint` (the span argument is not modelled; the
produced `Ident` is modelled by its string). -/
def NameHints.getNameHint (h : NameHints) (num : Option Nat) : String :=
  let numS := (num.filter fun n => decide (0 < n)).map Nat.repr
  let names : List (Option String) :=
    if h.long then [some h.parentName, h.variantName, h.fieldName, numS]
    else [(h.fieldName.or h.variantName).or (some h.parentName), numS]
  (names.map fun x => (x.map pascalCase).getD "").foldl (fun s p => s ++ p) ""

def NameHints.withFieldName (h : NameHints) (fieldName : String) : NameHints :=
  { h with fieldName := some fieldName }

def NameHints.withVariantName (h : NameHints) (variantName : String) : NameHints :=
  { h with variantName := some variantName }

/-! ### Declarations (venial data model, from the spec)

The spec treats the declaration-grammar parser as an external
collaborator producing "a structured declaration with attribute list,
name, visibility, generics, and body".  Token fields that venial stores
verbatim (keyword tokens, colons, the `#` of attributes) are
reconstructed canonically by the printing functions below. -/

/-- A named struct/union field: attributes, visibility, name, type
tokens. -/
structure NamedField where
  attributes : List Attribute
  visMarker : Option VisMarker
  name : String
  ty : List Tok
deriving Repr

/-- A tuple struct field: attributes, visibility, type tokens. -/
structure TupleField where
  attributes : List Attribute
  visMarker : Option VisMarker
  ty : List Tok
deriving Repr

/-- `venial::StructFields`: unit, named (brace) or tuple (paren) fields,
each field carrying its optional trailing comma token. -/
inductive StructFields where
  | unit
  | named (fields : List (NamedField × Option Tok))
  | tuple (fields : List (TupleField × Option Tok))
deriving Repr

structure StructDecl where
  attributes : List Attribute
  visMarker : Option VisMarker
  name : String
  genericParams : Option GenericParamList
  fields : StructFields
  tkSemicolon : Option Tok
deriving Repr

structure EnumVariant where
  attributes : List Attribute
  name : String
  contents : StructFields
deriving Repr

structure EnumDecl where
  attributes : List Attribute
  visMarker : Option VisMarker
  name : String
  genericParams : Option GenericParamList
  variants : List (EnumVariant × Option Tok)
deriving Repr

structure UnionDecl where
  attributes : List Attribute
  visMarker : Option VisMarker
  name : String
  genericParams : Option GenericParamList
  fields : List (NamedField × Option Tok)
deriving Repr

structure TyDefinition where
  attributes : List Attribute
  visMarker : Option VisMarker
  name : String
  genericParams : Option GenericParamList
  initializerTy : List Tok
deriving Repr

/-- `venial::Declaration` restricted to the kinds this engine handles;
`other` stands for any other parsed declaration kind (function, module,
trait, ...), which the engine reports as unsupported. -/
inductive Declaration where
  | structD (s : StructDecl)
  | enumD (e : EnumDecl)
  | unionD (u : UnionDecl)
  | tyDef (t : TyDefinition)
  | other
deriving Repr

/-! ### Printing (venial `ToTokens`, canonical form) -/

def AttributeValue.toToks : AttributeValue → List Tok
  | .group d ts => [.group d ts]
  | .eq ts => .punct '=' false :: ts
  | .empty => []

def Attribute.toToks (a : Attribute) : List Tok :=
  [.punct '#' false, .group .bracket (a.path ++ a.value.toToks)]

def attrsToks (attrs : List Attribute) : List Tok :=
  attrs.flatMap Attribute.toToks

def visToks : Option VisMarker → List Tok
  | none => []
  | some v => v.tok1 :: v.tok2.toList

def GenericParam.toToks (p : GenericParam) : List Tok :=
  p.tkPfx.toList ++ [.ident p.name] ++
    (match p.bound with
     | some b => b.tkColon :: b.tokens
     | none => [])

/-- Printing of a punctuated generic-parameter list (`into_token_stream`
of `Punctuated<GenericParam>`). -/
def genericParamsToks (ps : List (GenericParam × Option Tok)) : List Tok :=
  ps.flatMap fun pc => pc.1.toToks ++ pc.2.toList

def GenericParamList.toToks (g : GenericParamList) : List Tok :=
  g.tkL :: genericParamsToks g.params ++ [g.tkR]

def genericsToks : Option GenericParamList → List Tok
  | none => []
  | some g => g.toToks

def NamedField.toToks (f : NamedField) : List Tok :=
  attrsToks f.attributes ++ visToks f.visMarker ++
    [.ident f.name, .punct ':' false] ++ f.ty

def TupleField.toToks (f : TupleField) : List Tok :=
  attrsToks f.attributes ++ visToks f.visMarker ++ f.ty

def namedFieldsToks (fs : List (NamedField × Option Tok)) : List Tok :=
  fs.flatMap fun fc => fc.1.toToks ++ fc.2.toList

def tupleFieldsToks (fs : List (TupleField × Option Tok)) : List Tok :=
  fs.flatMap fun fc => fc.1.toToks ++ fc.2.toList

def StructFields.toToks : StructFields → List Tok
  | .unit => []
  | .named fs => [.group .brace (namedFieldsToks fs)]
  | .tuple fs => [.group .paren (tupleFieldsToks fs)]

def StructDecl.toToks (s : StructDecl) : List Tok :=
  attrsToks s.attributes ++ visToks s.visMarker ++
    [.ident "struct", .ident s.name] ++ genericsToks s.genericParams ++
    s.fields.toToks ++ s.tkSemicolon.toList

def EnumVariant.toToks (v : EnumVariant) : List Tok :=
  attrsToks v.attributes ++ [.ident v.name] ++ v.contents.toToks

def enumVariantsToks (vs : List (EnumVariant × Option Tok)) : List Tok :=
  vs.flatMap fun vc => vc.1.toToks ++ vc.2.toList

def EnumDecl.toToks (e : EnumDecl) : List Tok :=
  attrsToks e.attributes ++ visToks e.visMarker ++
    [.ident "enum", .ident e.name] ++ genericsToks e.genericParams ++
    [.group .brace (enumVariantsToks e.variants)]

def UnionDecl.toToks (u : UnionDecl) : List Tok :=
  attrsToks u.attributes ++ visToks u.visMarker ++
    [.ident "union", .ident u.name] ++ genericsToks u.genericParams ++
    [.group .brace (namedFieldsToks u.fields)]

def TyDefinition.toToks (t : TyDefinition) : List Tok :=
  attrsToks t.attributes ++ visToks t.visMarker ++
    [.ident "type", .ident t.name] ++ genericsToks t.genericParams ++
    [.punct '=' false] ++ t.initializerTy ++ [.punct ';' false]

def Declaration.toToks : Declaration → List Tok
  | .structD s => s.toToks
  | .enumD e => e.toToks
  | .unionD u => u.toToks
  | .tyDef t => t.toToks
  | .other => []

/-- `Declaration::generic_params` from venial. -/
def Declaration.genericParams : Declaration → Option GenericParamList
  | .structD s => s.genericParams
  | .enumD e => e.genericParams
  | .unionD u => u.genericParams
  | .tyDef t => t.genericParams
  | .other => none

/-! ### Declaration parsing

Modelled from the spec: the declaration-grammar parser (`venial`'s
`parse_declaration`) is an external collaborator, absent from `src/`.
The spec describes it as "consumes a token sequence, returns a structured
Declaration or a parse error" with the §3 data model (attribute list,
name, visibility, generics, body).  Tuple structs may lack their
terminating semicolon (the engine re-synthesizes it, §4.4 step 7), and a
complete declaration followed by anything but stray semicolons is a parse
error. -/

def isComma : Tok → Bool
  | .punct c _ => c = ','
  | _ => false

def isSemi : Tok → Bool
  | .punct c _ => c = ';'
  | _ => false

/-- `is_decl_kw` from the source. -/
def isDeclKw (kw : String) : Bool :=
  kw == "struct" || kw == "enum" || kw == "union" || kw == "type" ||
    kw == "fn" || kw == "mod" || kw == "trait"

def isPathTok : Tok → Bool
  | .ident _ => true
  | .punct c _ => c = ':'
  | _ => false

/-- Split an attribute group's contents into path and value. -/
def mkAttr (g : List Tok) : Attribute :=
  let path := g.takeWhile isPathTok
  match g.dropWhile isPathTok with
  | [] => ⟨path, .empty⟩
  | [.group d ts] => ⟨path, .group d ts⟩
  | .punct '=' _ :: ts => ⟨path, .eq ts⟩
  | _ => ⟨g, .empty⟩

/-- Parse leading outer attributes `#[...]`. -/
def parseAttrs : List Tok → List Attribute × List Tok
  | .punct '#' _ :: .group .bracket g :: rest =>
      let (as, r) := parseAttrs rest
      (mkAttr g :: as, r)
  | ts => ([], ts)

/-- Parse an optional leading visibility marker (`pub`, optionally with a
restriction group). -/
def parseVis : List Tok → Option VisMarker × List Tok
  | .ident "pub" :: .group .paren g :: rest =>
      (some ⟨.ident "pub", some (.group .paren g)⟩, rest)
  | .ident "pub" :: rest => (some ⟨.ident "pub", none⟩, rest)
  | ts => (none, ts)

/-- Scan to the `>` matching an already-consumed `<`, tracking depth.
Returns (inner tokens, closing token, remainder). -/
def scanAngles : List Tok → Nat → List Tok → Option (List Tok × Tok × List Tok)
  | [], _, _ => none
  | t :: ts, d, acc =>
      if isLt t then scanAngles ts (d + 1) (acc ++ [t])
      else if isGt t then
        match d with
        | 0 => some (acc, t, ts)
        | d' + 1 => scanAngles ts d' (acc ++ [t])
      else scanAngles ts d (acc ++ [t])

/-- Split a token list at top-level commas (w.r.t. `<`/`>` depth); each
segment is paired with its trailing comma token, if any. -/
def splitCommaAux : List Tok → Nat → List Tok → List (List Tok × Option Tok)
  | [], _, acc => [(acc, none)]
  | t :: ts, d, acc =>
      if isLt t then splitCommaAux ts (d + 1) (acc ++ [t])
      else if isGt t then splitCommaAux ts (d - 1) (acc ++ [t])
      else if isComma t ∧ d = 0 then (acc, some t) :: splitCommaAux ts 0 []
      else splitCommaAux ts d (acc ++ [t])

def splitTopCommas (ts : List Tok) : List (List Tok × Option Tok) :=
  splitCommaAux ts 0 []

def mkParamTail (pfx : Option Tok) (n : String) (rest : List Tok) :
    Except String GenericParam :=
  match rest with
  | [] => .ok ⟨pfx, n, none⟩
  | .punct ':' j :: bs => .ok ⟨pfx, n, some ⟨.punct ':' j, bs⟩⟩
  | _ => .error "parse error: generic parameter bound"

/-- Parse one generic parameter: optional kind marker (lifetime tick
punct or `const` ident), name, optional `: bound`. -/
def parseParamSeg (seg : List Tok) : Except String GenericParam :=
  match seg with
  | .ident "const" :: .ident n :: rest => mkParamTail (some (.ident "const")) n rest
  | .punct c j :: .ident n :: rest =>
      if c = Char.ofNat 39 then mkParamTail (some (.punct c j)) n rest
      else .error "parse error: generic parameter"
  | [.ident n] => mkParamTail none n []
  | .ident n :: rest => mkParamTail none n rest
  | _ => .error "parse error: generic parameter"

def parseParamSegs : List (List Tok × Option Tok) →
    Except String (List (GenericParam × Option Tok))
  | [] => .ok []
  | [([], none)] => .ok []
  | (seg, comma) :: rest => do
      let p ← parseParamSeg seg
      let ps ← parseParamSegs rest
      .ok ((p, comma) :: ps)

/-- Parse an optional generic-parameter list `<...>`. -/
def parseGenerics (ts : List Tok) : Except String (Option GenericParamList × List Tok) :=
  match ts with
  | t :: rest =>
      if isLt t then
        match scanAngles rest 0 [] with
        | none => .error "parse error: unclosed generic parameter list"
        | some (inner, close, r) => do
            let ps ← parseParamSegs (splitTopCommas inner)
            .ok (some ⟨t, ps, close⟩, r)
      else .ok (none, ts)
  | [] => .ok (none, [])

def parseNamedFieldSeg (seg : List Tok) : Except String NamedField :=
  let (attrs, r1) := parseAttrs seg
  let (vis, r2) := parseVis r1
  match r2 with
  | .ident n :: .punct ':' _ :: ty =>
      if ty.isEmpty then .error "parse error: missing field type"
      else .ok ⟨attrs, vis, n, ty⟩
  | _ => .error "parse error: named field"

def parseNamedFieldSegs : List (List Tok × Option Tok) →
    Except String (List (NamedField × Option Tok))
  | [] => .ok []
  | [([], none)] => .ok []
  | (seg, comma) :: rest => do
      let f ← parseNamedFieldSeg seg
      let fs ← parseNamedFieldSegs rest
      .ok ((f, comma) :: fs)

def parseNamedFields (g : List Tok) : Except String (List (NamedField × Option Tok)) :=
  parseNamedFieldSegs (splitTopCommas g)

def parseTupleFieldSeg (seg : List Tok) : Except String TupleField :=
  let (attrs, r1) := parseAttrs seg
  let (vis, r2) := parseVis r1
  if r2.isEmpty then .error "parse error: missing field type"
  else .ok ⟨attrs, vis, r2⟩

def parseTupleFieldSegs : List (List Tok × Option Tok) →
    Except String (List (TupleField × Option Tok))
  | [] => .ok []
  | [([], none)] => .ok []
  | (seg, comma) :: rest => do
      let f ← parseTupleFieldSeg seg
      let fs ← parseTupleFieldSegs rest
      .ok ((f, comma) :: fs)

def parseTupleFields (g : List Tok) : Except String (List (TupleField × Option Tok)) :=
  parseTupleFieldSegs (splitTopCommas g)

def parseVariantSeg (seg : List Tok) : Except String EnumVariant :=
  let (attrs, r1) := parseAttrs seg
  match r1 with
  | [.ident n] => .ok ⟨attrs, n, .unit⟩
  | [.ident n, .group .brace g] => do
      let fs ← parseNamedFields g
      .ok ⟨attrs, n, .named fs⟩
  | [.ident n, .group .paren g] => do
      let fs ← parseTupleFields g
      .ok ⟨attrs, n, .tuple fs⟩
  | _ => .error "parse error: enum variant"

def parseVariantSegs : List (List Tok × Option Tok) →
    Except String (List (EnumVariant × Option Tok))
  | [] => .ok []
  | [([], none)] => .ok []
  | (seg, comma) :: rest => do
      let v ← parseVariantSeg seg
      let vs ← parseVariantSegs rest
      .ok ((v, comma) :: vs)

/-- Only stray semicolons may follow a complete declaration. -/
def ensureEnd (ts : List Tok) : Except String Unit :=
  if ts.all isSemi then .ok ()
  else .error "parse error: unexpected tokens after declaration"

def parseStructRest (attrs : List Attribute) (vis : Option VisMarker) :
    List Tok → Except String Declaration
  | .ident n :: r =>
      if isDeclKw n then .error "parse error: expected name" else do
      let (g, r2) ← parseGenerics r
      match r2 with
      | .group .brace b :: r3 => do
          let fs ← parseNamedFields b
          ensureEnd r3
          .ok (.structD ⟨attrs, vis, n, g, .named fs, none⟩)
      | .group .paren b :: r3 => do
          let fs ← parseTupleFields b
          match r3 with
          | .punct ';' j :: r4 => do
              ensureEnd r4
              .ok (.structD ⟨attrs, vis, n, g, .tuple fs, some (.punct ';' j)⟩)
          | [] => .ok (.structD ⟨attrs, vis, n, g, .tuple fs, none⟩)
          | _ => .error "parse error: unexpected tokens after declaration"
      | .punct ';' j :: r3 => do
          ensureEnd r3
          .ok (.structD ⟨attrs, vis, n, g, .unit, some (.punct ';' j)⟩)
      | _ => .error "parse error: struct body"
  | _ => .error "parse error: expected name"

def parseEnumRest (attrs : List Attribute) (vis : Option VisMarker) :
    List Tok → Except String Declaration
  | .ident n :: r =>
      if isDeclKw n then .error "parse error: expected name" else do
      let (g, r2) ← parseGenerics r
      match r2 with
      | .group .brace b :: r3 => do
          let vs ← parseVariantSegs (splitTopCommas b)
          ensureEnd r3
          .ok (.enumD ⟨attrs, vis, n, g, vs⟩)
      | _ => .error "parse error: enum body"
  | _ => .error "parse error: expected name"

def parseUnionRest (attrs : List Attribute) (vis : Option VisMarker) :
    List Tok → Except String Declaration
  | .ident n :: r =>
      if isDeclKw n then .error "parse error: expected name" else do
      let (g, r2) ← parseGenerics r
      match r2 with
      | .group .brace b :: r3 => do
          let fs ← parseNamedFields b
          ensureEnd r3
          .ok (.unionD ⟨attrs, vis, n, g, fs⟩)
      | _ => .error "parse error: union body"
  | _ => .error "parse error: expected name"

def parseTyDefRest (attrs : List Attribute) (vis : Option VisMarker) :
    List Tok → Except String Declaration
  | .ident n :: r =>
      if isDeclKw n then .error "parse error: expected name" else do
      let (g, r2) ← parseGenerics r
      match r2 with
      | .punct '=' _ :: r3 =>
          let ini := r3.takeWhile fun t => !isSemi t
          match r3.dropWhile fun t => !isSemi t with
          | _ :: r4 => do
              ensureEnd r4
              .ok (.tyDef ⟨attrs, vis, n, g, ini⟩)
          | [] => .error "parse error: missing semicolon"
      | _ => .error "parse error: type alias"
  | _ => .error "parse error: expected name"

/-- `parse_declaration` (modelled from the spec, see section header). -/
def parseDeclaration (ts : List Tok) : Except String Declaration :=
  let (attrs, r1) := parseAttrs ts
  let (vis, r2) := parseVis r1
  match r2 with
  | .ident "struct" :: r3 => parseStructRest attrs vis r3
  | .ident "enum" :: r3 => parseEnumRest attrs vis r3
  | .ident "union" :: r3 => parseUnionRest attrs vis r3
  | .ident "type" :: r3 => parseTyDefRest attrs vis r3
  | .ident "fn" :: _ => .ok .other
  | .ident "mod" :: _ => .ok .other
  | .ident "trait" :: _ => .ok .other
  | _ => .error "parse error: expected declaration"

/-! ### Output stream and small helpers of the flattener -/

/-- One append to the output `TokenStream`: an error marker
(`compile_error!` via `report_error`), the deprecation-notice marker
function (`report_strikethrough_deprecated`), or a serialized
declaration (`to_tokens`). -/
inductive OutEntry where
  | error (msg : String)
  | deprecationNotice
  | decl (d : Declaration)
deriving Repr

/-- `make_pub_marker` from the source. -/
def makePubMarker : VisMarker := ⟨.ident "pub", none⟩

/-- `is_plain_pub` from the source. -/
def isPlainPub : Option VisMarker → Bool
  | some ⟨.ident i, none⟩ => i == "pub"
  | _ => false

/-- The inner-attribute extraction loop of `move_out_inner_attrs`:
repeatedly strip a leading `# ! (group)`, collecting `#` and the group
(the `!` is dropped, turning the attribute into outer position). -/
def takeInnerAttrs : List Tok → List Tok × List Tok
  | .punct '#' jh :: .punct '!' _ :: .group d g :: rest =>
      let (p, r) := takeInnerAttrs rest
      (.punct '#' jh :: .group d g :: p, r)
  | ts => ([], ts)

/-- `move_out_inner_attrs` from the source: hoist inner-position
attributes of every top-level brace group out to a leading outer
position. -/
def moveOutInnerAttrs (input : List Tok) : List Tok :=
  let step := input.map fun e =>
    match e with
    | .group .brace g =>
        let (p, g') := takeInnerAttrs g
        (p, Tok.group .brace g')
    | e => ([], e)
  (step.flatMap fun pe => pe.1) ++ step.map fun pe => pe.2

/-- `hack_append_type_decl_semicolon` from the source. -/
def hackAppendTypeDeclSemicolon (inputVec : List Tok) : List Tok :=
  let isTypeDecl :=
    (inputVec.any fun t =>
      match t with
      | .ident kw => kw == "type"
      | _ => false) &&
    (inputVec.all fun t =>
      match t with
      | .ident kw => kw == "type" || !isDeclKw kw
      | _ => true)
  if isTypeDecl then inputVec ++ [.punct ';' false] else inputVec

/-- Worker for `strike_through_attributes`: the `retain` loop.  Returns
(kept attributes, attributes added to the carried set, emissions). -/
def strikeWorker : List Attribute → List Attribute × List Attribute × List OutEntry
  | [] => ([], [], [])
  | attr :: rest =>
      let each := checkCrateAttr attr "each"
      let strikethrough :=
        match attr.path with
        | [.ident kw] => kw == "strikethrough"
        | _ => false
      let em0 : List OutEntry := if strikethrough then [.deprecationNotice] else []
      let (kept, added, em) := strikeWorker rest
      if strikethrough || each then
        match attr.value with
        | .group _ v => (kept, ⟨v, .empty⟩ :: added, em0 ++ em)
        | _ =>
            (kept, added,
              em0 ++ [.error "#[structstruck::each …]: … must be a [group]"] ++ em)
      else (attr :: kept, added, em0 ++ em)

/-- `strike_through_attributes` from the source: consume
`structstruck::each` / `strikethrough` markers into the carried set, then
splice the full carried set in front of the declaration's remaining
attributes.  Returns (new declaration attributes, new carried set,
emissions). -/
def strikeThroughAttributes (decAttrs strikeAttrs : List Attribute) :
    List Attribute × List Attribute × List OutEntry :=
  let (kept, added, em) := strikeWorker decAttrs
  let strike' := strikeAttrs ++ added
  (strike' ++ kept, strike', em)

/-! ### Field-type scanning and lifting -/

def isCommaTT : TypeTree → Bool
  | .token (.punct c _) => c = ','
  | _ => false

def isColonTT : TypeTree → Bool
  | .token (.punct c _) => c = ':'
  | _ => false

/-- `get_decl_ident` from the source. -/
def getDeclIdent : TypeTree → Option String
  | .token (.ident kw) => if isDeclKw kw then some kw else none
  | _ => none

def isDeclKwTok : Tok → Bool
  | .ident kw => isDeclKw kw
  | _ => false

/-- The `windows(3)` check of `recurse_through_type`: a top-level colon
whose two neighbours are not colons. -/
def hasColonPattern : List TypeTree → Bool
  | t0 :: t1 :: t2 :: rest =>
      (!isColonTT t0 && isColonTT t1 && !isColonTT t2) ||
        hasColonPattern (t1 :: t2 :: rest)
  | _ => false

def colonMsg : String :=
  "Colon in top level of type expression. Did you forget a comma somewhere?"

def dupDeclMsg : String := "More than one struct/enum/.. declaration found"

def noContextMsg : String := "No context for naming substructure"

def unsupportedMsg : String :=
  "Unsupported declaration (only struct, enum, and union are allowed)"

/-- The generic-parameter rewrite performed at the use site: keep the
name, keep `tk_prefix` only when it is a `Punct`, drop the bound. -/
def stripParam (gp : GenericParam) : GenericParam :=
  ⟨gp.tkPfx.filter fun pfx =>
      match pfx with
      | .punct _ _ => true
      | _ => false,
    gp.name, none⟩

def strippedParams (ps : List (GenericParam × Option Tok)) :
    List (GenericParam × Option Tok) :=
  ps.map fun pc => (stripParam pc.1, pc.2)

/-- The tokens appended after a spliced reference when the lifted
declaration has generics: `<`, the stripped parameter list, `>`. -/
def genApp : Option GenericParamList → List Tok
  | none => []
  | some g => g.tkL :: genericParamsToks (strippedParams g.params) ++ [g.tkR]

/-- The type of the recursive-definition processor threaded through the
field-walking functions (`recurse_through_definition` partially applied
to its fuel). -/
abbrev RecDef := List Tok → List Attribute → Bool → Option GenericParamList × List OutEntry

mutual

/-- `recurse_through_type_list` from the source: split at top-level
commas, process each segment, reassemble with the comma tokens.  Returns
(rebuilt type tokens, emissions).  The `fuel` argument makes the mutual
recursion structural; callers always supply fuel that is sufficient by
construction (`typeTreeFuel` below), so the fuel-exhaustion branch is
unreachable and the functions agree with the Rust originals on every
input. -/
def recurseThroughTypeList (fuel : Nat) (recDef : RecDef) (tok : List TypeTree)
    (strike : List Attribute) (nameHint : Option String) (pubHint : Bool)
    (path : NameHints) : List Tok × List OutEntry :=
  match fuel with
  | 0 => ([], [.error "recursion limit exceeded"])
  | fuel + 1 =>
      let seg := tok.takeWhile fun t => !isCommaTT t
      let (tr1, em1) := recurseThroughType fuel recDef seg strike nameHint pubHint path
      match tok.dropWhile fun t => !isCommaTT t with
      | [] => (tr1, em1)
      | c :: rest' =>
          let ctok :=
            match c with
            | .token t => t
            | _ => .punct ',' false
          let (tr2, em2) :=
            recurseThroughTypeList fuel recDef rest' strike nameHint pubHint path
          (tr1 ++ [ctok] ++ tr2, em1 ++ em2)

/-- `recurse_through_type` from the source.  `recDef` stands for the
recursive call into `recurse_through_definition`. -/
def recurseThroughType (fuel : Nat) (recDef : RecDef) (tok : List TypeTree)
    (strike : List Attribute) (nameHint : Option String) (pubHint : Bool)
    (path : NameHints) : List Tok × List OutEntry :=
  match fuel with
  | 0 => ([], [.error "recursion limit exceeded"])
  | fuel + 1 =>
      let colonEm : List OutEntry :=
        if hasColonPattern tok then [.error colonMsg] else []
      match tok.findIdx? fun t => (getDeclIdent t).isSome with
      | some kw =>
          let dupEm : List OutEntry :=
            if (tok.drop (kw + 1)).any fun t => (getDeclIdent t).isSome then
              [.error dupDeclMsg]
            else []
          let decl := unTreeType tok
          let pos := decl.findIdx isDeclKwTok
          match decl[pos + 1]? with
          | some (.ident n) =>
              let (generics, em) := recDef decl strike pubHint
              (.ident n :: genApp generics, colonEm ++ dupEm ++ em)
          | _ =>
              let nameAndEm : Tok × List OutEntry :=
                match nameHint with
                | some nh => (.ident nh, [])
                | none => (.punct '!' false, [.error noContextMsg])
              let newthing := decl.take (pos + 1) ++ [nameAndEm.1] ++ decl.drop (pos + 1)
              let (generics, em) := recDef newthing strike pubHint
              (nameAndEm.1 :: genApp generics, colonEm ++ dupEm ++ nameAndEm.2 ++ em)
      | none =>
          let (tr, em) := recurseGroups fuel recDef tok strike nameHint path
          (tr, colonEm ++ em)

/-- The `un_type_tree` call at the end of `recurse_through_type`: copy
tokens, recursing through angle-bracket groups with `pub_hint` forced to
`false`. -/
def recurseGroups (fuel : Nat) (recDef : RecDef) (tok : List TypeTree)
    (strike : List Attribute) (nameHint : Option String) (path : NameHints) :
    List Tok × List OutEntry :=
  match fuel with
  | 0 => ([], [.error "recursion limit exceeded"])
  | fuel + 1 =>
      match tok with
      | [] => ([], [])
      | .group o g c :: rest =>
          let (trG, emG) := recurseThroughTypeList fuel recDef g strike nameHint false path
          let (trR, emR) := recurseGroups fuel recDef rest strike nameHint path
          (o :: (trG ++ c.toList) ++ trR, emG ++ emR)
      | .token t :: rest =>
          let (trR, emR) := recurseGroups fuel recDef rest strike nameHint path
          (t :: trR, emR)

end

mutual

/-- Weight of one type-tree node (node count, children included). -/
def ttWeight : TypeTree → Nat
  | .group _ g _ => 1 + ttListWeight g
  | .token _ => 1

/-- Weight of a type tree (number of nodes, counting group children). -/
def ttListWeight : List TypeTree → Nat
  | [] => 0
  | t :: rest => ttWeight t + ttListWeight rest

end

/-- Fuel sufficient for the type-tree recursion on `tok` (see the
sufficiency lemmas below): the recursion depth is bounded by the tree
weight. -/
def typeTreeFuel (tok : List TypeTree) : Nat := 3 * ttListWeight tok + 3

/-! ### Field walking and the definition flattener -/

/-- The hint computation for a named field: strip a raw-identifier
prefix, narrow the naming context by the field name, synthesize. -/
def stripRawPfx (s : String) : String :=
  match s.data with
  | 'r' :: '#' :: rest => ⟨rest⟩
  | _ => s

/-- `named_struct_fields` from the source (also used for unions): walk
the fields in order, rebuild each type, concatenate emissions. -/
def namedStructFields (recDef : RecDef) (n : List (NamedField × Option Tok))
    (strike : List Attribute) (inPubEnum : Bool) (path : NameHints) :
    List (NamedField × Option Tok) × List OutEntry :=
  match n with
  | [] => ([], [])
  | (field, comma) :: rest =>
      let fieldName := stripRawPfx field.name
      let path' := path.withFieldName fieldName
      let nameHint := path'.getNameHint none
      let (tt, terrs) := typeTree field.ty
      let (tyRet, em) := recurseThroughTypeList (typeTreeFuel tt) recDef tt strike
        (some nameHint) (isPlainPub field.visMarker || inPubEnum) path'
      let (rest', emR) := namedStructFields recDef rest strike inPubEnum path
      (({ field with ty := tyRet }, comma) :: rest',
        terrs.map OutEntry.error ++ em ++ emR)

/-- Is some top-level node of the type tree the ident `pub`?  (The check
guarding the tuple-field visibility transfer.) -/
def hasTopPub (tt : List TypeTree) : Bool :=
  tt.any fun tr =>
    match tr with
    | .token (.ident kw) => kw == "pub"
    | _ => false

/-- `tuple_struct_fields` from the source, with the running positional
index.  The visibility-transfer hack moves the field's own marker into
the type token stream (as leading tokens) when no top-level `pub` is
already present, clearing the field's marker; the `pub_hint` is computed
from the field's marker after that move. -/
def tupleStructFieldsAux (recDef : RecDef) (t : List (TupleField × Option Tok))
    (strike : List Attribute) (inPubEnum : Bool) (path : NameHints) (num : Nat) :
    List (TupleField × Option Tok) × List OutEntry :=
  match t with
  | [] => ([], [])
  | (field, comma) :: rest =>
      let (tt, terrs) := typeTree field.ty
      let ttAndVis : List TypeTree × Option VisMarker :=
        if hasTopPub tt then (tt, field.visMarker)
        else
          match field.visMarker with
          | some vis => ((visToks (some vis)).map TypeTree.token ++ tt, none)
          | none => (tt, none)
      let nameHint := path.getNameHint (some num)
      let (tyRet, em) := recurseThroughTypeList (typeTreeFuel ttAndVis.1) recDef
        ttAndVis.1 strike (some nameHint) (isPlainPub ttAndVis.2 || inPubEnum) path
      let (rest', emR) := tupleStructFieldsAux recDef rest strike inPubEnum path (num + 1)
      (({ field with ty := tyRet, visMarker := ttAndVis.2 }, comma) :: rest',
        terrs.map OutEntry.error ++ em ++ emR)

def tupleStructFields (recDef : RecDef) (t : List (TupleField × Option Tok))
    (strike : List Attribute) (inPubEnum : Bool) (path : NameHints) :
    List (TupleField × Option Tok) × List OutEntry :=
  tupleStructFieldsAux recDef t strike inPubEnum path 0

/-- `recurse_through_struct_fields` from the source. -/
def recurseThroughStructFields (recDef : RecDef) (fields : StructFields)
    (strike : List Attribute) (inPubEnum : Bool) (path : NameHints) :
    StructFields × List OutEntry :=
  match fields with
  | .unit => (.unit, [])
  | .named n =>
      let (n', em) := namedStructFields recDef n strike inPubEnum path
      (.named n', em)
  | .tuple t =>
      let (t', em) := tupleStructFields recDef t strike inPubEnum path
      (.tuple t', em)

/-- The per-variant loop of the enum branch of
`recurse_through_definition`. -/
def enumVariantsWorker (recDef : RecDef) (vs : List (EnumVariant × Option Tok))
    (strike : List Attribute) (inPubEnum : Bool) (path : NameHints) :
    List (EnumVariant × Option Tok) × List OutEntry :=
  match vs with
  | [] => ([], [])
  | (v, comma) :: rest =>
      let path' := path.withVariantName v.name
      let (contents', em) := recurseThroughStructFields recDef v.contents strike inPubEnum path'
      let (rest', emR) := enumVariantsWorker recDef rest strike inPubEnum path
      (({ v with contents := contents' }, comma) :: rest', em ++ emR)

/-- The struct arm of `recurse_through_definition`'s match: returns the
fully processed declaration and the entries emitted before it. -/
def structProcess (recDef : RecDef) (s : StructDecl) (strikeAttrs : List Attribute)
    (makePub : Bool) : StructDecl × List OutEntry :=
  let (attrs1, strike1, em1) := strikeThroughAttributes s.attributes strikeAttrs
  let pathAndAttrs := NameHints.fromAttrs s.name attrs1
  let (fields', em2) := recurseThroughStructFields recDef s.fields strike1
    false pathAndAttrs.1
  let vis' := if makePub then some (s.visMarker.getD makePubMarker) else s.visMarker
  let semi' :=
    match fields' with
    | .tuple _ => some (s.tkSemicolon.getD (.punct ';' false))
    | _ => s.tkSemicolon
  (⟨pathAndAttrs.2, vis', s.name, s.genericParams, fields', semi'⟩, em1 ++ em2)

/-- The enum arm of `recurse_through_definition`'s match. -/
def enumProcess (recDef : RecDef) (e : EnumDecl) (strikeAttrs : List Attribute)
    (makePub : Bool) : EnumDecl × List OutEntry :=
  let (attrs1, strike1, em1) := strikeThroughAttributes e.attributes strikeAttrs
  let pathAndAttrs := NameHints.fromAttrs e.name attrs1
  let (variants', em2) := enumVariantsWorker recDef e.variants strike1
    (isPlainPub e.visMarker) pathAndAttrs.1
  let vis' := if makePub then some (e.visMarker.getD makePubMarker) else e.visMarker
  (⟨pathAndAttrs.2, vis', e.name, e.genericParams, variants'⟩, em1 ++ em2)

/-- The union arm of `recurse_through_definition`'s match. -/
def unionProcess (recDef : RecDef) (u : UnionDecl) (strikeAttrs : List Attribute)
    (makePub : Bool) : UnionDecl × List OutEntry :=
  let (attrs1, strike1, em1) := strikeThroughAttributes u.attributes strikeAttrs
  let pathAndAttrs := NameHints.fromAttrs u.name attrs1
  let (fields', em2) := namedStructFields recDef u.fields strike1
    false pathAndAttrs.1
  let vis' := if makePub then some (u.visMarker.getD makePubMarker) else u.visMarker
  (⟨pathAndAttrs.2, vis', u.name, u.genericParams, fields'⟩, em1 ++ em2)

/-- The type-alias arm of `recurse_through_definition`'s match. -/
def tyDefProcess (recDef : RecDef) (t : TyDefinition) (strikeAttrs : List Attribute)
    (makePub : Bool) : TyDefinition × List OutEntry :=
  let (attrs1, strike1, em1) := strikeThroughAttributes t.attributes strikeAttrs
  let pathAndAttrs := NameHints.fromAttrs t.name attrs1
  let (tt, terrs) := typeTree t.initializerTy
  let (tyRet, em2) := recurseThroughTypeList (typeTreeFuel tt) recDef tt
    strike1 none false pathAndAttrs.1
  let vis' := if makePub then some (t.visMarker.getD makePubMarker) else t.visMarker
  (⟨pathAndAttrs.2, vis', t.name, t.genericParams, tyRet⟩,
    em1 ++ terrs.map OutEntry.error ++ em2)

/-- `recurse_through_definition` from the source, with a recursion-depth
fuel (the Rust recursion is bounded only by the call stack; every claim
is stated with sufficient fuel).  Returns the declaration's generics and
the entries appended to the output stream; in each supported arm the
declaration itself is serialized only after the arm's recursive field
processing. -/
def recurseThroughDefinition : Nat → List Tok → List Attribute → Bool →
    Option GenericParamList × List OutEntry
  | 0, _, _, _ => (none, [.error "recursion limit exceeded"])
  | fuel + 1, input, strikeAttrs, makePub =>
      let recDef := recurseThroughDefinition fuel
      let input1 := hackAppendTypeDeclSemicolon input
      let input2 := moveOutInnerAttrs input1
      match parseDeclaration input2 with
      | .error e => (none, [.error e])
      | .ok parsed =>
          match parsed with
          | .structD s =>
              let (s', em) := structProcess recDef s strikeAttrs makePub
              (s.genericParams, em ++ [.decl (.structD s')])
          | .enumD e =>
              let (e', em) := enumProcess recDef e strikeAttrs makePub
              (e.genericParams, em ++ [.decl (.enumD e')])
          | .unionD u =>
              let (u', em) := unionProcess recDef u strikeAttrs makePub
              (u.genericParams, em ++ [.decl (.unionD u')])
          | .tyDef t =>
              let (t', em) := tyDefProcess recDef t strikeAttrs makePub
              (t.genericParams, em ++ [.decl (.tyDef t')])
          | .other => (none, [.error unsupportedMsg])

/-! ## Claim C5: bracket tokenizer round-trip -/

/-- C5: For every token sequence containing no unmatched `<` or `>`
brackets, reassembling (un-treeing) the `TypeTree` produced by the
bracket-aware tokenizer reproduces the original token sequence exactly
(and no bracket errors are reported). -/
def mostSpecific (h : NameHints) : String :=
  match h.fieldName with
  | some f => f
  | none =>
      match h.variantName with
      | some v => v
      | none => h.parentName

/-- The positional index in decimal, appended only when nonzero. -/
def idxSuffix : Option Nat → String
  | some n => if 0 < n then Nat.repr n else ""
  | none => ""

def optPascal : Option String → String
  | some s => pascalCase s
  | none => ""

/-- The name C3 prescribes: short mode capitalizes the most specific
component; long mode concatenates root, variant, field (each present
component capitalized) in that fixed order; then the
index-if-nonzero, with no separators. -/
def specName (h : NameHints) (num : Option Nat) : String :=
  if h.long then
    pascalCase h.parentName ++ optPascal h.variantName ++ optPascal h.fieldName ++
      idxSuffix num
  else
    pascalCase (mostSpecific h) ++ idxSuffix num

/-- The spec's tuple example: `struct Foo(struct {}, struct {});`. -/
def exC3Tuple : List Tok :=
  [.ident "struct", .ident "Foo", .group .paren
    [.ident "struct", .group .brace [], .punct ',' false,
     .ident "struct", .group .brace []],
   .punct ';' false]

/-- C3: the synthesized name is exactly the one the spec prescribes for
every naming context and positional index; in particular a tuple struct
`Foo` with anonymous nested declarations at positions 0 and 1 synthesizes
`Foo` and `Foo1` in short mode. -/
def exC9Raw : List Tok :=
  [.ident "struct", .ident "X", .group .brace
    [.ident "r#foo_bar", .punct ':' false, .ident "struct", .group .brace []]]

/-- C9: for a named field spelled as a raw identifier the `r#` prefix is
stripped before capitalized-word conversion; the field `r#foo_bar` of a
flattened struct yields the synthesized name `FooBar`. -/
def exC8Vec : List Tok :=
  [.ident "struct", .ident "Outer", .group .brace
    [.ident "pub", .ident "a", .punct ':' false, .ident "Vec", .punct '<' false,
     .ident "struct", .ident "Inner", .group .brace [], .punct '>' false]]

/-- `pub enum E { V(Vec<struct {}>) }`. -/
def exC8Enum : List Tok :=
  [.ident "pub", .ident "enum", .ident "E", .group .brace
    [.ident "V", .group .paren
      [.ident "Vec", .punct '<' false, .ident "struct", .group .brace [],
       .punct '>' false]]]

/-- C8: when a field's type has no top-level declaration keyword, the
recursion into its angle-bracket groups forwards `pub_hint := false`, so
the result does not depend on the incoming `pub_hint` at all; in
particular a declaration nested in `Vec<...>` of a `pub` field, or of a
variant of a plain-`pub` enum, is emitted without a visibility marker. -/
def Declaration.visMarkerOf : Declaration → Option VisMarker
  | .structD s => s.visMarker
  | .enumD e => e.visMarker
  | .unionD u => u.visMarker
  | .tyDef t => t.visMarker
  | .other => none

/-- C10: with the force-public flag set, the emitted declaration's
visibility is its own explicit marker when it has one, and the plain
`pub` marker only otherwise. -/
def exC10 : List Tok :=
  [.ident "pub", .group .paren [.ident "crate"], .ident "struct", .ident "S",
   .punct ';' false]

/-- Witness for C10: a `pub(crate) struct S;` flattened with force-public
keeps its `pub(crate)` marker exactly. -/
def specUseSiteParams (ps : List (GenericParam × Option Tok)) : List Tok :=
  ps.flatMap fun pc =>
    (match pc.1.tkPfx with
     | some (.punct c j) => [Tok.punct c j]
     | _ => []) ++ [.ident pc.1.name] ++ pc.2.toList

def exC6 : List Tok :=
  [.ident "struct", .ident "O", .group .brace
    [.ident "f", .punct ':' false, .ident "struct", .ident "Inner",
     .punct '<' false, .ident "T", .punct ':' false, .ident "SomeBound",
     .punct '>' false, .group .paren [.ident "T"]]]

/-- C6: when the lifted declaration owns generic parameters, the spliced
use-site reference is its name followed by the parameter-name list with
every bound removed and only punctuation prefix markers kept; in
particular `struct Inner<T: SomeBound>(T)` is referenced as `Inner<T>`. -/
def exC1 : List Tok :=
  [.ident "struct", .ident "Outer", .group .brace
    [.ident "a", .punct ':' false, .ident "struct", .group .brace [],
     .punct ',' false,
     .ident "b", .punct ':' false, .ident "struct", .group .brace []]]

/-- C1: siblings are processed left-to-right with their emissions
concatenated in field order, and the processed declaration itself is
appended only afterwards: for a struct whose two named fields hold
anonymous nested declarations flattening to `A` and `B`, the output is
exactly `[A, B, outer-struct]`. -/
def twoDeclToks (k1 n1 k2 n2 : String) (b1 b2 : List Tok) : List Tok :=
  [.ident k1, .ident n1, .group .brace b1, .ident k2, .ident n2, .group .brace b2]

mutual

def cleanTT : TypeTree → Bool
  | .group _ g _ => !hasColonPattern g && cleanList g
  | .token t => !isDeclKwTok t

def cleanList : List TypeTree → Bool
  | [] => true
  | t :: rest => cleanTT t && cleanList rest

end

/-- Cleanness of a whole (top-level) type tree. -/
def cleanTop (tok : List TypeTree) : Bool :=
  !hasColonPattern tok && cleanList tok

def cleanFieldTy (ty : List Tok) : Bool :=
  (typeTree ty).2.isEmpty && cleanTop (typeTree ty).1

/-- The type tree a tuple field is actually scanned with, after the
visibility-transfer hack of `tuple_struct_fields`. -/
def tupleFieldTree (f : TupleField) : List TypeTree :=
  let tt := (typeTree f.ty).1
  if hasTopPub tt then tt
  else
    match f.visMarker with
    | some vis => (visToks (some vis)).map TypeTree.token ++ tt
    | none => tt

def cleanTupleFieldTy (f : TupleField) : Bool :=
  (typeTree f.ty).2.isEmpty && cleanTop (tupleFieldTree f)

/-- What a tuple field becomes when its clean type is rebuilt verbatim:
the visibility marker possibly folded into the leading type tokens. -/
def tupleFieldTransfer (f : TupleField) : TupleField :=
  if hasTopPub (typeTree f.ty).1 then f
  else
    match f.visMarker with
    | some vis => ⟨f.attributes, none, visToks (some vis) ++ f.ty⟩
    | none => f

def processedFields : StructFields → StructFields
  | .unit => .unit
  | .named n => .named n
  | .tuple t => .tuple (t.map fun fc => (tupleFieldTransfer fc.1, fc.2))

def cleanFields : StructFields → Bool
  | .unit => true
  | .named n => n.all fun fc => cleanFieldTy fc.1.ty
  | .tuple t => t.all fun fc => cleanTupleFieldTy fc.1

def isMarkerAttr (a : Attribute) : Bool :=
  checkCrateAttr a "each" || checkCrateAttr a "long_names" ||
    (match a.path with
     | [.ident kw] => kw == "strikethrough"
     | _ => false)

def noMarkers (attrs : List Attribute) : Bool := attrs.all fun a => !isMarkerAttr a

def cleanDecl : Declaration → Bool
  | .structD s =>
      noMarkers s.attributes && cleanFields s.fields &&
        (match s.fields with
         | .tuple _ => s.tkSemicolon.isSome
         | _ => true)
  | .enumD e =>
      noMarkers e.attributes && e.variants.all fun vc => cleanFields vc.1.contents
  | .unionD u =>
      noMarkers u.attributes && u.fields.all fun fc => cleanFieldTy fc.1.ty
  | .tyDef t => noMarkers t.attributes && cleanFieldTy t.initializerTy
  | .other => false

/-- Witness input for C7: `struct Foo { x : u32 }`. -/
def exC7 : List Tok :=
  [.ident "struct", .ident "Foo",
   .group .brace [.ident "x", .punct ':' false, .ident "u32"]]

/-- The parse of `exC7`. -/
def exC7Decl : Declaration :=
  .structD ⟨[], none, "Foo", none,
    .named [(⟨[], none, "x", [.ident "u32"]⟩, none)], none⟩

/-- C7: flattening a well-formed declaration that contains no nested
declarations (clean, bracket-balanced field types) and carries no
recognized marker attributes emits exactly one output entry, a
declaration that prints to the input token sequence unchanged — no extra
tokens and no error markers. -/

theorem unTreeType_eq_unTypeTree (tok : List TypeTree) :
    unTreeType tok = unTypeTree tok unTreeType := by
  induction tok with
  | nil => simp [unTreeType, unTypeTree]
  | cons h t ih =>
      cases h <;> simp [unTreeType, unTreeTypeOne, unTypeTree] at ih ⊢ <;> simp [ih]

theorem unTreeType_append (a b : List TypeTree) :
    unTreeType (a ++ b) = unTreeType a ++ unTreeType b := by
  induction a with
  | nil => simp [unTreeType]
  | cons h t ih => cases h <;> simp [unTreeType, unTreeTypeOne, ih]

/-- Token reconstruction of a tokenizer stack (innermost frame first):
each frame contributes the tokens accumulated at its level followed by
its opening `<`. -/
theorem isLt_punct {t : Tok} (h : isLt t = true) : ∃ j, t = .punct '<' j := by
  cases t with
  | punct c j =>
      simp only [isLt, decide_eq_true_eq] at h
      exact ⟨j, by rw [h]⟩
  | ident s => simp [isLt] at h
  | group d g => simp [isLt] at h
  | lit s => simp [isLt] at h

theorem isGt_punct {t : Tok} (h : isGt t = true) : ∃ j, t = .punct '>' j := by
  cases t with
  | punct c j =>
      simp only [isGt, decide_eq_true_eq] at h
      exact ⟨j, by rw [h]⟩
  | ident s => simp [isGt] at h
  | group d g => simp [isGt] at h
  | lit s => simp [isGt] at h

theorem typeTreeFinish_untree (stac : List (Tok × List TypeTree))
    (current : List TypeTree) (errs : List String) :
    unTreeType (typeTreeFinish stac current errs).1 =
      stackToks stac ++ unTreeType current := by
  induction stac generalizing current errs with
  | nil => simp [typeTreeFinish, stackToks]
  | cons f stac ih =>
      rcases f with ⟨o, parent⟩
      rw [typeTreeFinish, ih]
      simp [stackToks, unTreeType_append, unTreeType, unTreeTypeOne]

/-- Invariant of the tokenizer: reassembling the final state reproduces
the whole input, whatever the input was (error recovery preserves
tokens). -/
theorem typeTreeAux_untree (ts : List Tok) (stac : List (Tok × List TypeTree))
    (current : List TypeTree) (errs : List String) :
    unTreeType (typeTreeAux ts stac current errs).1 =
      stackToks stac ++ unTreeType current ++ ts := by
  induction ts generalizing stac current errs with
  | nil => simp [typeTreeAux, typeTreeFinish_untree]
  | cons t ts ih =>
      simp only [typeTreeAux]
      by_cases hlt : isLt t = true
      · obtain ⟨j, rfl⟩ := isLt_punct hlt
        rw [if_pos hlt, ih]
        simp [stackToks, unTreeType]
      · rw [if_neg hlt]
        by_cases hgt : isGt t = true
        · obtain ⟨j, rfl⟩ := isGt_punct hgt
          rw [if_pos hgt]
          rcases stac with _ | ⟨⟨o, parent⟩, stac'⟩
          · rw [ih]
            simp [stackToks, unTreeType_append, unTreeType, unTreeTypeOne]
          · rw [ih]
            simp [stackToks, unTreeType_append, unTreeType, unTreeTypeOne]
        · rw [if_neg hgt, ih]
          simp [stackToks, unTreeType_append, unTreeType, unTreeTypeOne]

/-- Reassembling the bracket tree reproduces the input tokens, for every
input. -/
theorem unTreeType_typeTree (args : List Tok) :
    unTreeType (typeTree args).1 = args := by
  simpa [stackToks, unTreeType] using typeTreeAux_untree args [] [] []

/-- Bracket balance of a token sequence with respect to `<` and `>`,
tracking nesting depth: no `>` at depth zero, no dangling `<`. -/
theorem typeTreeAux_errs (ts : List Tok) (stac : List (Tok × List TypeTree))
    (current : List TypeTree) (errs : List String) :
    balancedAux ts stac.length = true →
      (typeTreeAux ts stac current errs).2 = errs := by
  induction ts generalizing stac current errs with
  | nil =>
      intro hbal
      simp [balancedAux] at hbal
      rcases stac with _ | ⟨⟨o, parent⟩, stac'⟩
      · simp [typeTreeAux, typeTreeFinish]
      · simp at hbal
  | cons t ts ih =>
      intro hbal
      simp only [typeTreeAux]
      by_cases hlt : isLt t = true
      · rw [if_pos hlt]
        apply ih
        simpa [balancedAux, hlt] using hbal
      · rw [if_neg hlt]
        by_cases hgt : isGt t = true
        · rw [if_pos hgt]
          rcases stac with _ | ⟨⟨o, parent⟩, stac'⟩
          · simp [balancedAux, if_neg hlt, if_pos hgt] at hbal
          · apply ih
            simpa [balancedAux, if_neg hlt, if_pos hgt] using hbal
        · rw [if_neg hgt]
          apply ih
          simpa [balancedAux, if_neg hlt, if_neg hgt] using hbal

/-! ### Attributes, visibility, generics (venial data model, from the spec) -/

/-- `venial::AttributeValue`: empty, a bracketed token group, or
`= tokens`. -/
theorem sizeOf_takeWhile_le {α} [SizeOf α] (p : α → Bool) (l : List α) :
    sizeOf (l.takeWhile p) ≤ sizeOf l := by
  induction l with
  | nil => simp [List.takeWhile]
  | cons a l ih =>
      simp only [List.takeWhile]
      cases p a <;> simp
      · omega
      · exact ih

theorem sizeOf_dropWhile_le {α} [SizeOf α] (p : α → Bool) (l : List α) :
    sizeOf (l.dropWhile p) ≤ sizeOf l := by
  induction l with
  | nil => simp [List.dropWhile]
  | cons a l ih =>
      simp only [List.dropWhile]
      cases p a <;> simp
      all_goals omega

theorem c5_typeTree_roundtrip (args : List Tok) (hbal : balanced args = true) :
    unTreeType (typeTree args).1 = args ∧ (typeTree args).2 = [] := by
  refine ⟨unTreeType_typeTree args, ?_⟩
  exact typeTreeAux_errs args [] [] [] hbal

/-- Witness for C5 at the token sequence `Vec < Map < K , V > >`. -/
theorem c5_typeTree_roundtrip_witness :
    balanced [Tok.ident "Vec", Tok.punct '<' false, Tok.ident "Map",
        Tok.punct '<' false, Tok.ident "K", Tok.punct ',' false, Tok.ident "V",
        Tok.punct '>' true, Tok.punct '>' false] = true ∧
      unTreeType (typeTree [Tok.ident "Vec", Tok.punct '<' false, Tok.ident "Map",
        Tok.punct '<' false, Tok.ident "K", Tok.punct ',' false, Tok.ident "V",
        Tok.punct '>' true, Tok.punct '>' false]).1 =
        [Tok.ident "Vec", Tok.punct '<' false, Tok.ident "Map",
        Tok.punct '<' false, Tok.ident "K", Tok.punct ',' false, Tok.ident "V",
        Tok.punct '>' true, Tok.punct '>' false] := by
  refine ⟨by rfl, ?_⟩
  exact (c5_typeTree_roundtrip _ (by rfl)).1

/-! ## Name synthesis: auxiliary lemmas -/

theorem empty_append_str (s : String) : "" ++ s = s := by
  apply String.ext
  simp [String.data_append]

theorem pascalCaseList_id (l : List Char) (b : Bool)
    (h : ∀ c ∈ l, c ≠ '_' ∧ toAsciiUpper c = c) : pascalCaseList l b = l := by
  induction l generalizing b with
  | nil => rfl
  | cons c cs ih =>
      obtain ⟨h1, h2⟩ := h c (by simp)
      have hrest : ∀ c ∈ cs, c ≠ '_' ∧ toAsciiUpper c = c := fun c hc => h c (by simp [hc])
      cases b with
      | false => simp [pascalCaseList, if_neg h1, ih _ hrest]
      | true => simp [pascalCaseList, if_neg h1, h2, ih _ hrest]

theorem digitChar_fixed (k : Nat) (hk : k < 10) :
    Nat.digitChar k ≠ '_' ∧ toAsciiUpper (Nat.digitChar k) = Nat.digitChar k := by
  interval_cases k <;> decide

theorem toDigitsCore_digits (fuel n : Nat) (acc : List Char)
    (hacc : ∀ c ∈ acc, c ≠ '_' ∧ toAsciiUpper c = c) :
    ∀ c ∈ Nat.toDigitsCore 10 fuel n acc, c ≠ '_' ∧ toAsciiUpper c = c := by
  induction fuel generalizing n acc with
  | zero => simpa [Nat.toDigitsCore] using hacc
  | succ fuel ih =>
      intro c hc
      rw [Nat.toDigitsCore] at hc
      by_cases h : n / 10 = 0
      · rw [if_pos h] at hc
        rcases List.mem_cons.mp hc with rfl | hmem
        · exact digitChar_fixed _ (Nat.mod_lt _ (by norm_num))
        · exact hacc _ hmem
      · rw [if_neg h] at hc
        refine ih _ _ ?_ _ hc
        intro c' hc'
        rcases List.mem_cons.mp hc' with rfl | hmem
        · exact digitChar_fixed _ (Nat.mod_lt _ (by norm_num))
        · exact hacc _ hmem

/-- `pascal_case` leaves a decimal number string unchanged. -/
theorem pascalCase_repr (n : Nat) : pascalCase (Nat.repr n) = Nat.repr n := by
  have h := toDigitsCore_digits (n + 1) n [] (by simp)
  show pascalCase ((Nat.toDigits 10 n).asString) = (Nat.toDigits 10 n).asString
  have hd : ((Nat.toDigits 10 n).asString).data = Nat.toDigits 10 n := rfl
  unfold pascalCase
  rw [hd, pascalCaseList_id _ _ (by simpa [Nat.toDigits] using h)]
  rfl

theorem append_empty_str (s : String) : s ++ "" = s := by
  apply String.ext
  simp [String.data_append]

/-! ## Claim C3: name synthesis -/

/-- The name C3 prescribes: the most specific available component is the
field name, else the variant name, else the root name. -/
theorem c3_name_synthesis :
    (∀ (h : NameHints) (num : Option Nat), h.getNameHint num = specName h num) ∧
      (recurseThroughDefinition 2 exC3Tuple [] false).2 =
        [.decl (.structD ⟨[], none, "Foo", none, .named [], none⟩),
         .decl (.structD ⟨[], none, "Foo1", none, .named [], none⟩),
         .decl (.structD ⟨[], none, "Foo", none,
           .tuple [(⟨[], none, [.ident "Foo"]⟩, some (.punct ',' false)),
                   (⟨[], none, [.ident "Foo1"]⟩, none)],
           some (.punct ';' false)⟩)] := by
  constructor
  · intro h num
    rcases h with ⟨long, p, v, f⟩
    have hnum : (Option.map (pascalCase ∘ Nat.repr)
        (num.filter fun n => decide (0 < n))).getD "" = idxSuffix num := by
      rcases num with _ | n
      · rfl
      · by_cases hn : 0 < n <;>
          simp [Option.filter, idxSuffix, hn, pascalCase_repr]
    cases long with
    | true =>
        rcases v with _ | v <;> rcases f with _ | f <;>
          simp [NameHints.getNameHint, specName, optPascal, mostSpecific, hnum,
            empty_append_str, append_empty_str]
    | false =>
        rcases v with _ | v <;> rcases f with _ | f <;>
          simp [NameHints.getNameHint, specName, optPascal, mostSpecific, hnum,
            Option.or, empty_append_str, append_empty_str]
  · rfl

/-! ## Claim C9: raw identifiers in name synthesis -/

/-- The spec's raw-identifier example:
`struct X { r#foo_bar: struct {} }`. -/
theorem c9_raw_ident_strip :
    (∀ (s : String), stripRawPfx ⟨'r' :: '#' :: s.data⟩ = s) ∧
      (∀ (h : NameHints) (s : String),
        (h.withFieldName (stripRawPfx ⟨'r' :: '#' :: s.data⟩)).getNameHint none =
          (h.withFieldName s).getNameHint none) ∧
      (recurseThroughDefinition 2 exC9Raw [] false).2 =
        [.decl (.structD ⟨[], none, "FooBar", none, .named [], none⟩),
         .decl (.structD ⟨[], none, "X", none,
           .named [(⟨[], none, "r#foo_bar", [.ident "FooBar"]⟩, none)], none⟩)] := by
  have hstrip : ∀ (s : String), stripRawPfx ⟨'r' :: '#' :: s.data⟩ = s := by
    intro s
    show String.mk s.data = s
    rfl
  exact ⟨hstrip, fun h s => by rw [hstrip], by rfl⟩

/-! ## Claim C8: declarations inside angle-bracket groups stay private -/

/-- `struct Outer { pub a: Vec<struct Inner {}> }`. -/
theorem c8_angle_nested_private :
    (∀ (fuel : Nat) (recDef : RecDef) (tok : List TypeTree) (strike : List Attribute)
        (nameHint : Option String) (p1 p2 : Bool) (path : NameHints),
        (tok.findIdx? fun t => (getDeclIdent t).isSome) = none →
        recurseThroughType fuel recDef tok strike nameHint p1 path =
          recurseThroughType fuel recDef tok strike nameHint p2 path) ∧
      (recurseThroughDefinition 2 exC8Vec [] false).2 =
        [.decl (.structD ⟨[], none, "Inner", none, .named [], none⟩),
         .decl (.structD ⟨[], none, "Outer", none,
           .named [(⟨[], some ⟨.ident "pub", none⟩, "a",
             [.ident "Vec", .punct '<' false, .ident "Inner", .punct '>' false]⟩, none)],
           none⟩)] ∧
      (recurseThroughDefinition 2 exC8Enum [] false).2 =
        [.decl (.structD ⟨[], none, "V", none, .named [], none⟩),
         .decl (.enumD ⟨[], some ⟨.ident "pub", none⟩, "E", none,
           [(⟨[], "V", .tuple [(⟨[], none,
             [.ident "Vec", .punct '<' false, .ident "V", .punct '>' false]⟩, none)]⟩,
             none)]⟩)] := by
  refine ⟨?_, rfl, rfl⟩
  intro fuel recDef tok strike nameHint p1 p2 path h
  cases fuel with
  | zero => rfl
  | succ fuel => simp only [recurseThroughType, h]

/-- Witness for C8's general part: the tree of `Vec<struct Inner {}>` has
no top-level declaration keyword, and processing it is independent of the
incoming `pub_hint`. -/
theorem c8_angle_nested_private_witness :
    ((typeTree [Tok.ident "Vec", Tok.punct '<' false, Tok.ident "struct",
        Tok.ident "Inner", Tok.group .brace [], Tok.punct '>' false]).1.findIdx?
          fun t => (getDeclIdent t).isSome) = none ∧
      recurseThroughType 9 (recurseThroughDefinition 1)
          (typeTree [Tok.ident "Vec", Tok.punct '<' false, Tok.ident "struct",
            Tok.ident "Inner", Tok.group .brace [], Tok.punct '>' false]).1
          [] (some "A") true ⟨false, "Outer", none, some "a"⟩ =
        recurseThroughType 9 (recurseThroughDefinition 1)
          (typeTree [Tok.ident "Vec", Tok.punct '<' false, Tok.ident "struct",
            Tok.ident "Inner", Tok.group .brace [], Tok.punct '>' false]).1
          [] (some "A") false ⟨false, "Outer", none, some "a"⟩ :=
  ⟨rfl, c8_angle_nested_private.1 9 (recurseThroughDefinition 1) _ [] (some "A")
    true false ⟨false, "Outer", none, some "a"⟩ rfl⟩

/-! ## Claim C10: force-public never overrides an explicit marker -/

/-- `venial::Declaration`-level visibility accessor. -/
theorem c10_make_pub_respects_existing (fuel : Nat) (input : List Tok)
    (strikeAttrs : List Attribute) (d : Declaration)
    (hparse : parseDeclaration (moveOutInnerAttrs (hackAppendTypeDeclSemicolon input)) =
      .ok d)
    (hne : d ≠ .other) :
    ∃ pre d',
      (recurseThroughDefinition (fuel + 1) input strikeAttrs true).2 =
          pre ++ [.decl d'] ∧
        d'.visMarkerOf = some (d.visMarkerOf.getD makePubMarker) := by
  cases d with
  | other => exact absurd rfl hne
  | structD s =>
      refine ⟨(structProcess (recurseThroughDefinition fuel) s strikeAttrs true).2,
        .structD (structProcess (recurseThroughDefinition fuel) s strikeAttrs true).1,
        ?_, ?_⟩
      · simp [recurseThroughDefinition, hparse]
      · simp [structProcess, Declaration.visMarkerOf]
  | enumD e =>
      refine ⟨(enumProcess (recurseThroughDefinition fuel) e strikeAttrs true).2,
        .enumD (enumProcess (recurseThroughDefinition fuel) e strikeAttrs true).1,
        ?_, ?_⟩
      · simp [recurseThroughDefinition, hparse]
      · simp [enumProcess, Declaration.visMarkerOf]
  | unionD u =>
      refine ⟨(unionProcess (recurseThroughDefinition fuel) u strikeAttrs true).2,
        .unionD (unionProcess (recurseThroughDefinition fuel) u strikeAttrs true).1,
        ?_, ?_⟩
      · simp [recurseThroughDefinition, hparse]
      · simp [unionProcess, Declaration.visMarkerOf]
  | tyDef t =>
      refine ⟨(tyDefProcess (recurseThroughDefinition fuel) t strikeAttrs true).2,
        .tyDef (tyDefProcess (recurseThroughDefinition fuel) t strikeAttrs true).1,
        ?_, ?_⟩
      · simp [recurseThroughDefinition, hparse]
      · simp [tyDefProcess, Declaration.visMarkerOf]

/-- `pub(crate) struct S;`. -/
theorem c10_make_pub_respects_existing_witness :
    parseDeclaration (moveOutInnerAttrs (hackAppendTypeDeclSemicolon exC10)) =
        .ok (.structD ⟨[], some ⟨.ident "pub", some (.group .paren [.ident "crate"])⟩,
          "S", none, .unit, some (.punct ';' false)⟩) ∧
      ∃ pre d',
        (recurseThroughDefinition 1 exC10 [] true).2 = pre ++ [.decl d'] ∧
          d'.visMarkerOf =
            some ((Declaration.structD ⟨[],
              some ⟨.ident "pub", some (.group .paren [.ident "crate"])⟩,
              "S", none, .unit, some (.punct ';' false)⟩).visMarkerOf.getD makePubMarker) :=
  ⟨rfl, c10_make_pub_respects_existing 0 exC10 []
    (.structD ⟨[], some ⟨.ident "pub", some (.group .paren [.ident "crate"])⟩,
      "S", none, .unit, some (.punct ';' false)⟩) rfl
    (fun h => Declaration.noConfusion h)⟩

/-! ## Claim C6: generics re-projection at the use site -/

/-- The use-site parameter rendering C6 prescribes: every bound removed;
a parameter's prefix marker kept exactly when it is a punctuation token;
the punctuated commas preserved. -/
theorem strippedParams_toks (ps : List (GenericParam × Option Tok)) :
    genericParamsToks (strippedParams ps) = specUseSiteParams ps := by
  induction ps with
  | nil => rfl
  | cons pc ps ih =>
      rcases pc with ⟨p, comma⟩
      rcases p with ⟨pfx, name, bound⟩
      simp only [genericParamsToks, strippedParams, specUseSiteParams,
        List.map_cons, List.flatMap_cons] at ih ⊢
      rw [ih]
      rcases pfx with _ | pfx
      · simp [stripParam, GenericParam.toToks, Option.filter]
      · cases pfx <;> simp [stripParam, GenericParam.toToks, Option.filter]

/-- `struct O { f: struct Inner<T: SomeBound>(T) }`. -/
theorem c6_generics_reprojection :
    (∀ (fuel : Nat) (recDef : RecDef) (tok : List TypeTree) (strike : List Attribute)
        (nameHint : Option String) (pubHint : Bool) (path : NameHints)
        (kw : Nat) (n : String) (g : GenericParamList) (em : List OutEntry),
        (tok.findIdx? fun t => (getDeclIdent t).isSome) = some kw →
        (unTreeType tok)[(unTreeType tok).findIdx isDeclKwTok + 1]? =
          some (.ident n) →
        recDef (unTreeType tok) strike pubHint = (some g, em) →
        (recurseThroughType (fuel + 1) recDef tok strike nameHint pubHint path).1 =
          .ident n :: g.tkL :: specUseSiteParams g.params ++ [g.tkR]) ∧
      (recurseThroughDefinition 2 exC6 [] false).2 =
        [.decl (.structD ⟨[], none, "Inner",
           some ⟨.punct '<' false,
             [(⟨none, "T", some ⟨.punct ':' false, [.ident "SomeBound"]⟩⟩, none)],
             .punct '>' false⟩,
           .tuple [(⟨[], none, [.ident "T"]⟩, none)], some (.punct ';' false)⟩),
         .decl (.structD ⟨[], none, "O", none,
           .named [(⟨[], none, "f",
             [.ident "Inner", .punct '<' false, .ident "T", .punct '>' false]⟩, none)],
           none⟩)] := by
  constructor
  · intro fuel recDef tok strike nameHint pubHint path kw n g em hfind hidx hrec
    simp only [recurseThroughType, hfind, hidx, hrec]
    simp [genApp, strippedParams_toks]
  · rfl

/-- Witness for C6's general part at the tree of
`struct Inner<T: SomeBound>(T)`. -/
theorem c6_generics_reprojection_witness :
    ((typeTree [Tok.ident "struct", Tok.ident "Inner", Tok.punct '<' false,
        Tok.ident "T", Tok.punct ':' false, Tok.ident "SomeBound",
        Tok.punct '>' false, Tok.group .paren [Tok.ident "T"]]).1.findIdx?
          fun t => (getDeclIdent t).isSome) = some 0 ∧
      (recurseThroughType 9 (recurseThroughDefinition 1)
          (typeTree [Tok.ident "struct", Tok.ident "Inner", Tok.punct '<' false,
            Tok.ident "T", Tok.punct ':' false, Tok.ident "SomeBound",
            Tok.punct '>' false, Tok.group .paren [Tok.ident "T"]]).1
          [] (some "F") false ⟨false, "O", none, some "f"⟩).1 =
        [Tok.ident "Inner", Tok.punct '<' false, Tok.ident "T", Tok.punct '>' false] := by
  refine ⟨rfl, ?_⟩
  have h := c6_generics_reprojection.1 8 (recurseThroughDefinition 1)
    (typeTree [Tok.ident "struct", Tok.ident "Inner", Tok.punct '<' false,
      Tok.ident "T", Tok.punct ':' false, Tok.ident "SomeBound",
      Tok.punct '>' false, Tok.group .paren [Tok.ident "T"]]).1
    [] (some "F") false ⟨false, "O", none, some "f"⟩ 0 "Inner"
    ⟨.punct '<' false,
      [(⟨none, "T", some ⟨.punct ':' false, [.ident "SomeBound"]⟩⟩, none)],
      .punct '>' false⟩
    [.decl (.structD ⟨[], none, "Inner",
      some ⟨.punct '<' false,
        [(⟨none, "T", some ⟨.punct ':' false, [.ident "SomeBound"]⟩⟩, none)],
        .punct '>' false⟩,
      .tuple [(⟨[], none, [.ident "T"]⟩, none)], some (.punct ';' false)⟩)]
    rfl rfl rfl
  simpa [specUseSiteParams] using h

/-! ## Claim C1: post-order emission -/

/-- Processing one named field whose type is an anonymous nested struct
(`struct { ... }`): the synthesized name is spliced into the field type
and the recursive definition call's emission is passed through. -/
theorem namedField_anon (recDef : RecDef) (f : NamedField) (comma : Option Tok)
    (strike : List Attribute) (inPub : Bool) (path : NameHints) (b : List Tok)
    (hty : f.ty = [.ident "struct", .group .brace b]) :
    namedStructFields recDef [(f, comma)] strike inPub path =
      ([({ f with ty := (Tok.ident ((path.withFieldName (stripRawPfx f.name)).getNameHint none) ::
          genApp (recDef [.ident "struct",
            .ident ((path.withFieldName (stripRawPfx f.name)).getNameHint none),
            .group .brace b] strike (isPlainPub f.visMarker || inPub)).1) }, comma)],
        (recDef [.ident "struct",
          .ident ((path.withFieldName (stripRawPfx f.name)).getNameHint none),
          .group .brace b] strike (isPlainPub f.visMarker || inPub)).2) := by
  simp only [namedStructFields, hty]
  simp only [List.append_nil]
  rfl

theorem namedStructFields_cons (recDef : RecDef) (f : NamedField × Option Tok)
    (fs : List (NamedField × Option Tok)) (strike : List Attribute) (inPub : Bool)
    (path : NameHints) :
    (namedStructFields recDef (f :: fs) strike inPub path).2 =
      (namedStructFields recDef [f] strike inPub path).2 ++
        (namedStructFields recDef fs strike inPub path).2 := by
  rcases f with ⟨f, comma⟩
  simp [namedStructFields]

/-- `struct Outer { a: struct {}, b: struct {} }` (two anonymous nested
declarations). -/
theorem c1_post_order :
    (∀ (recDef : RecDef) (f : NamedField × Option Tok)
        (fs : List (NamedField × Option Tok)) (strike : List Attribute)
        (inPub : Bool) (path : NameHints),
        (namedStructFields recDef (f :: fs) strike inPub path).2 =
          (namedStructFields recDef [f] strike inPub path).2 ++
            (namedStructFields recDef fs strike inPub path).2) ∧
      (∀ (fuel : Nat) (ts : List Tok) (s : StructDecl) (f1 f2 : NamedField)
          (c1 c2 : Option Tok) (b1 b2 : List Tok) (gA gB : Option GenericParamList)
          (dA dB : Declaration),
          parseDeclaration (moveOutInnerAttrs (hackAppendTypeDeclSemicolon ts)) =
            .ok (.structD s) →
          s.attributes = [] →
          s.fields = .named [(f1, c1), (f2, c2)] →
          f1.ty = [.ident "struct", .group .brace b1] →
          f2.ty = [.ident "struct", .group .brace b2] →
          recurseThroughDefinition fuel [.ident "struct",
              .ident ((NameHints.withFieldName ⟨false, s.name, none, none⟩
                (stripRawPfx f1.name)).getNameHint none),
              .group .brace b1] [] (isPlainPub f1.visMarker) = (gA, [.decl dA]) →
          recurseThroughDefinition fuel [.ident "struct",
              .ident ((NameHints.withFieldName ⟨false, s.name, none, none⟩
                (stripRawPfx f2.name)).getNameHint none),
              .group .brace b2] [] (isPlainPub f2.visMarker) = (gB, [.decl dB]) →
          ∃ s', (recurseThroughDefinition (fuel + 1) ts [] false).2 =
              [.decl dA, .decl dB, .decl (.structD s')] ∧ s'.name = s.name) := by
  refine ⟨namedStructFields_cons, ?_⟩
  intro fuel ts s f1 f2 c1 c2 b1 b2 gA gB dA dB hparse hattrs hfields hty1 hty2 hA hB
  refine ⟨(structProcess (recurseThroughDefinition fuel) s [] false).1, ?_, ?_⟩
  · have hfieldsEm :
        (recurseThroughStructFields (recurseThroughDefinition fuel) s.fields []
          false ⟨false, s.name, none, none⟩).2 = [.decl dA, .decl dB] := by
      rw [hfields]
      simp only [recurseThroughStructFields]
      rw [namedStructFields_cons]
      rw [namedField_anon _ _ _ _ _ _ _ hty1, namedField_anon _ _ _ _ _ _ _ hty2]
      simp only [Bool.or_false]
      rw [hA, hB]
      rfl
    have hmain : (recurseThroughDefinition (fuel + 1) ts [] false).2 =
        (recurseThroughStructFields (recurseThroughDefinition fuel) s.fields []
          false ⟨false, s.name, none, none⟩).2 ++
          [.decl (.structD (structProcess (recurseThroughDefinition fuel) s [] false).1)] := by
      simp only [recurseThroughDefinition, hparse, structProcess, hattrs]
      rfl
    rw [hmain, hfieldsEm]
    rfl
  · rfl

/-- Witness for C1's post-order example with concrete fields `a` and
`b`. -/
theorem c1_post_order_witness :
    parseDeclaration (moveOutInnerAttrs (hackAppendTypeDeclSemicolon exC1)) =
        .ok (.structD ⟨[], none, "Outer", none,
          .named [(⟨[], none, "a", [.ident "struct", .group .brace []]⟩,
                    some (.punct ',' false)),
                  (⟨[], none, "b", [.ident "struct", .group .brace []]⟩, none)],
          none⟩) ∧
      ∃ s', (recurseThroughDefinition 2 exC1 [] false).2 =
          [.decl (.structD ⟨[], none, "A", none, .named [], none⟩),
           .decl (.structD ⟨[], none, "B", none, .named [], none⟩),
           .decl (.structD s')] ∧ s'.name = "Outer" :=
  ⟨rfl, c1_post_order.2 1 exC1
    ⟨[], none, "Outer", none,
      .named [(⟨[], none, "a", [.ident "struct", .group .brace []]⟩,
                some (.punct ',' false)),
              (⟨[], none, "b", [.ident "struct", .group .brace []]⟩, none)],
      none⟩
    ⟨[], none, "a", [.ident "struct", .group .brace []]⟩
    ⟨[], none, "b", [.ident "struct", .group .brace []]⟩
    (some (.punct ',' false)) none [] []
    none none
    (.structD ⟨[], none, "A", none, .named [], none⟩)
    (.structD ⟨[], none, "B", none, .named [], none⟩)
    rfl rfl rfl rfl rfl rfl rfl⟩

/-! ## Claim C4: visibility forwarding into lifted declarations -/

theorem structProcess_vis_makePub (recDef : RecDef) (sA : StructDecl)
    (strike : List Attribute) (h : sA.visMarker = none) :
    (structProcess recDef sA strike true).1.visMarker = some makePubMarker := by
  simp [structProcess, h]

/-- C4: a plain-`pub` named field forwards force-public into the lift of
an anonymous nested struct, which (having no marker of its own) is
emitted `pub`; a field of a variant of a plain-`pub` enum does the same
whatever the field's own marker; and only the plain `pub` marker
triggers this (a marker with a restriction group, e.g. `pub(crate)`,
does not). -/
theorem c4_visibility_forwarding :
    (∀ (fuel : Nat) (f : NamedField) (comma : Option Tok) (strike : List Attribute)
        (path : NameHints) (b : List Tok) (sA : StructDecl),
        f.visMarker = some ⟨.ident "pub", none⟩ →
        f.ty = [.ident "struct", .group .brace b] →
        parseDeclaration (moveOutInnerAttrs (hackAppendTypeDeclSemicolon
          [.ident "struct",
           .ident ((path.withFieldName (stripRawPfx f.name)).getNameHint none),
           .group .brace b])) = .ok (.structD sA) →
        sA.visMarker = none →
        ∃ pre sA',
          (namedStructFields (recurseThroughDefinition (fuel + 1)) [(f, comma)]
              strike false path).2 = pre ++ [.decl (.structD sA')] ∧
            sA'.visMarker = some makePubMarker) ∧
      (∀ (fuel : Nat) (ts : List Tok) (e : EnumDecl) (v : EnumVariant)
          (cv cf : Option Tok) (f : NamedField) (b : List Tok) (sA : StructDecl),
          parseDeclaration (moveOutInnerAttrs (hackAppendTypeDeclSemicolon ts)) =
            .ok (.enumD e) →
          e.visMarker = some ⟨.ident "pub", none⟩ →
          e.attributes = [] →
          e.variants = [(v, cv)] →
          v.contents = .named [(f, cf)] →
          f.ty = [.ident "struct", .group .brace b] →
          parseDeclaration (moveOutInnerAttrs (hackAppendTypeDeclSemicolon
            [.ident "struct",
             .ident (((NameHints.withVariantName ⟨false, e.name, none, none⟩ v.name).withFieldName
               (stripRawPfx f.name)).getNameHint none),
             .group .brace b])) = .ok (.structD sA) →
          sA.visMarker = none →
          ∃ pre sA' post,
            (recurseThroughDefinition (fuel + 2) ts [] false).2 =
                pre ++ [.decl (.structD sA')] ++ post ∧
              sA'.visMarker = some makePubMarker) ∧
      isPlainPub (some ⟨.ident "pub", none⟩) = true ∧
      (∀ (restriction : Tok), isPlainPub (some ⟨.ident "pub", some restriction⟩) = false) := by
  refine ⟨?_, ?_, rfl, fun _ => rfl⟩
  · intro fuel f comma strike path b sA hvis hty hparse hsvis
    rw [namedField_anon _ _ _ _ _ _ _ hty]
    rw [hvis]
    simp only [isPlainPub, Bool.or_false]
    have hbeq : ("pub" == "pub") = true := rfl
    rw [hbeq]
    refine ⟨(structProcess (recurseThroughDefinition fuel) sA strike true).2,
      (structProcess (recurseThroughDefinition fuel) sA strike true).1, ?_,
      structProcess_vis_makePub _ _ _ hsvis⟩
    simp only [recurseThroughDefinition, hparse]
  · intro fuel ts e v cv cf f b sA hparse hvis hattrs hvars hcont hty hparseA hsvis
    have hworker :
        (enumVariantsWorker (recurseThroughDefinition (fuel + 1)) e.variants []
            (isPlainPub e.visMarker) ⟨false, e.name, none, none⟩).2 =
          (structProcess (recurseThroughDefinition fuel) sA [] true).2 ++
            [.decl (.structD (structProcess (recurseThroughDefinition fuel) sA [] true).1)] ++
            [] := by
      rw [hvars]
      simp only [enumVariantsWorker, recurseThroughStructFields]
      rw [hvis]
      simp only [isPlainPub]
      have hbeq : ("pub" == "pub") = true := rfl
      rw [hbeq]
      rw [hcont]
      simp only [recurseThroughStructFields]
      rw [namedField_anon _ _ _ _ _ _ _ hty]
      simp only [Bool.or_true]
      simp only [recurseThroughDefinition, hparseA]
    have hmain : (recurseThroughDefinition (fuel + 2) ts [] false).2 =
        (enumVariantsWorker (recurseThroughDefinition (fuel + 1)) e.variants []
            (isPlainPub e.visMarker) ⟨false, e.name, none, none⟩).2 ++
          [.decl (.enumD (enumProcess (recurseThroughDefinition (fuel + 1)) e [] false).1)] := by
      simp only [recurseThroughDefinition, hparse, enumProcess, hattrs]
      rfl
    refine ⟨(structProcess (recurseThroughDefinition fuel) sA [] true).2,
      (structProcess (recurseThroughDefinition fuel) sA [] true).1,
      [.decl (.enumD (enumProcess (recurseThroughDefinition (fuel + 1)) e [] false).1)],
      ?_, structProcess_vis_makePub _ _ _ hsvis⟩
    rw [hmain, hworker]
    simp

/-- Witness for C4 at the spec's example: a `pub` named field `a` whose
type is `struct {}` yields that struct emitted `pub`. -/
theorem c4_visibility_forwarding_witness :
    (⟨[], some ⟨.ident "pub", none⟩, "a",
        [.ident "struct", .group .brace []]⟩ : NamedField).visMarker =
        some ⟨.ident "pub", none⟩ ∧
      ∃ pre sA',
        (namedStructFields (recurseThroughDefinition 1)
            [(⟨[], some ⟨.ident "pub", none⟩, "a",
              [.ident "struct", .group .brace []]⟩, none)]
            [] false ⟨false, "Outer", none, none⟩).2 =
          pre ++ [.decl (.structD sA')] ∧ sA'.visMarker = some makePubMarker :=
  ⟨rfl, c4_visibility_forwarding.1 0
    ⟨[], some ⟨.ident "pub", none⟩, "a", [.ident "struct", .group .brace []]⟩
    none [] ⟨false, "Outer", none, none⟩ []
    ⟨[], none, "A", none, .named [], none⟩ rfl rfl rfl rfl⟩

/-! ## Claim C2: more than one declaration keyword at top level -/

/-- The two-inline-declarations family of field types:
`k1 n1 { b1 } k2 n2 { b2 }`. -/
theorem isDeclKw_ne_type {n : String} (hn : isDeclKw n = false) :
    (n == "type") = false := by
  cases hcase : n == "type"
  · rfl
  · exfalso
    have h : isDeclKw n = true := by simp [isDeclKw, hcase]
    rw [hn] at h
    exact Bool.noConfusion h

theorem hack_twoDecl (k1 k2 n1 n2 : String) (b1 b2 : List Tok)
    (hk1 : k1 = "struct" ∨ k1 = "enum" ∨ k1 = "union")
    (hk2 : k2 = "struct" ∨ k2 = "enum" ∨ k2 = "union")
    (hn1 : isDeclKw n1 = false) (hn2 : isDeclKw n2 = false) :
    hackAppendTypeDeclSemicolon (twoDeclToks k1 n1 k2 n2 b1 b2) =
      twoDeclToks k1 n1 k2 n2 b1 b2 := by
  have h1 : (k1 == "type") = false := by
    rcases hk1 with rfl | rfl | rfl <;> rfl
  have h2 : (k2 == "type") = false := by
    rcases hk2 with rfl | rfl | rfl <;> rfl
  have hany : ((twoDeclToks k1 n1 k2 n2 b1 b2).any fun t =>
      match t with
      | .ident kw => kw == "type"
      | _ => false) = false := by
    simp [twoDeclToks, List.any_cons, h1, h2, isDeclKw_ne_type hn1,
      isDeclKw_ne_type hn2]
  simp only [hackAppendTypeDeclSemicolon]
  rw [hany]
  simp

theorem moveOut_twoDecl (k1 k2 n1 n2 : String) (b1 b2 : List Tok)
    (hb1 : takeInnerAttrs b1 = ([], b1)) (hb2 : takeInnerAttrs b2 = ([], b2)) :
    moveOutInnerAttrs (twoDeclToks k1 n1 k2 n2 b1 b2) =
      twoDeclToks k1 n1 k2 n2 b1 b2 := by
  simp [moveOutInnerAttrs, twoDeclToks, hb1, hb2]

theorem bind_to_error {α β : Type} (x : Except String α) (msg : String) :
    ∃ e, Except.bind x (fun _ => (Except.error msg : Except String β)) = .error e := by
  cases x with
  | error er => exact ⟨er, rfl⟩
  | ok a => exact ⟨msg, rfl⟩

theorem parse_twoDecl_fails (k1 k2 n1 n2 : String) (b1 b2 : List Tok)
    (hk1 : k1 = "struct" ∨ k1 = "enum" ∨ k1 = "union")
    (hn1 : isDeclKw n1 = false) :
    ∃ e, parseDeclaration (twoDeclToks k1 n1 k2 n2 b1 b2) = .error e := by
  rcases hk1 with rfl | rfl | rfl
  · show ∃ e, parseStructRest [] none
      [.ident n1, .group .brace b1, .ident k2, .ident n2, .group .brace b2] = .error e
    have h0 : parseStructRest [] none
        [.ident n1, .group .brace b1, .ident k2, .ident n2, .group .brace b2] =
        Except.bind (parseNamedFields b1)
          (fun _ => Except.error "parse error: unexpected tokens after declaration") := by
      simp only [parseStructRest, hn1, Bool.false_eq_true, if_false]
      rfl
    rw [h0]
    exact bind_to_error _ _
  · show ∃ e, parseEnumRest [] none
      [.ident n1, .group .brace b1, .ident k2, .ident n2, .group .brace b2] = .error e
    have h0 : parseEnumRest [] none
        [.ident n1, .group .brace b1, .ident k2, .ident n2, .group .brace b2] =
        Except.bind (parseVariantSegs (splitTopCommas b1))
          (fun _ => Except.error "parse error: unexpected tokens after declaration") := by
      simp only [parseEnumRest, hn1, Bool.false_eq_true, if_false]
      rfl
    rw [h0]
    exact bind_to_error _ _
  · show ∃ e, parseUnionRest [] none
      [.ident n1, .group .brace b1, .ident k2, .ident n2, .group .brace b2] = .error e
    have h0 : parseUnionRest [] none
        [.ident n1, .group .brace b1, .ident k2, .ident n2, .group .brace b2] =
        Except.bind (parseNamedFields b1)
          (fun _ => Except.error "parse error: unexpected tokens after declaration") := by
      simp only [parseUnionRest, hn1, Bool.false_eq_true, if_false]
      rfl
    rw [h0]
    exact bind_to_error _ _

theorem recurseThroughDefinition_twoDecl (fuel : Nat) (k1 k2 n1 n2 : String)
    (b1 b2 : List Tok) (strike : List Attribute) (makePub : Bool)
    (hk1 : k1 = "struct" ∨ k1 = "enum" ∨ k1 = "union")
    (hk2 : k2 = "struct" ∨ k2 = "enum" ∨ k2 = "union")
    (hn1 : isDeclKw n1 = false) (hn2 : isDeclKw n2 = false)
    (hb1 : takeInnerAttrs b1 = ([], b1)) (hb2 : takeInnerAttrs b2 = ([], b2)) :
    ∃ e, recurseThroughDefinition (fuel + 1) (twoDeclToks k1 n1 k2 n2 b1 b2)
        strike makePub = (none, [.error e]) := by
  obtain ⟨e, he⟩ := parse_twoDecl_fails k1 k2 n1 n2 b1 b2 hk1 hn1
  refine ⟨e, ?_⟩
  simp only [recurseThroughDefinition,
    hack_twoDecl k1 k2 n1 n2 b1 b2 hk1 hk2 hn1 hn2,
    moveOut_twoDecl k1 k2 n1 n2 b1 b2 hb1 hb2, he]

theorem recurseTypeList_single (fuel : Nat) (recDef : RecDef) (tok : List TypeTree)
    (strike : List Attribute) (nameHint : Option String) (pubHint : Bool)
    (path : NameHints)
    (hseg : tok.takeWhile (fun t => !isCommaTT t) = tok)
    (hdrop : tok.dropWhile (fun t => !isCommaTT t) = []) :
    recurseThroughTypeList (fuel + 1) recDef tok strike nameHint pubHint path =
      recurseThroughType fuel recDef tok strike nameHint pubHint path := by
  simp only [recurseThroughTypeList, hseg, hdrop]

theorem recurseType_twoDecl (fuel : Nat) (recDef : RecDef) (k1 k2 n1 n2 : String)
    (b1 b2 : List Tok) (strike : List Attribute) (nameHint : Option String)
    (pubHint : Bool) (path : NameHints)
    (hk1T : isDeclKw k1 = true) (hn1 : isDeclKw n1 = false)
    (hk2T : isDeclKw k2 = true) :
    recurseThroughType (fuel + 1) recDef
        [.token (.ident k1), .token (.ident n1), .token (.group .brace b1),
         .token (.ident k2), .token (.ident n2), .token (.group .brace b2)]
        strike nameHint pubHint path =
      (.ident n1 :: genApp (recDef (twoDeclToks k1 n1 k2 n2 b1 b2) strike pubHint).1,
        .error dupDeclMsg :: (recDef (twoDeclToks k1 n1 k2 n2 b1 b2) strike pubHint).2) := by
  have hfind : ([TypeTree.token (.ident k1), .token (.ident n1),
      .token (.group .brace b1), .token (.ident k2), .token (.ident n2),
      .token (.group .brace b2)].findIdx? fun t => (getDeclIdent t).isSome) = some 0 := by
    simp [List.findIdx?_cons, getDeclIdent, hk1T]
  have hdup : (([TypeTree.token (.ident k1), .token (.ident n1),
      .token (.group .brace b1), .token (.ident k2), .token (.ident n2),
      .token (.group .brace b2)].drop (0 + 1)).any fun t => (getDeclIdent t).isSome) =
      true := by
    simp [getDeclIdent, hn1, hk2T]
  have hpos : (twoDeclToks k1 n1 k2 n2 b1 b2).findIdx isDeclKwTok = 0 := by
    simp [twoDeclToks, List.findIdx_cons, isDeclKwTok, hk1T]
  have huntree : unTreeType [TypeTree.token (.ident k1), .token (.ident n1),
      .token (.group .brace b1), .token (.ident k2), .token (.ident n2),
      .token (.group .brace b2)] = twoDeclToks k1 n1 k2 n2 b1 b2 := rfl
  simp only [recurseThroughType, hfind, hdup, huntree, hpos, if_true]
  rfl

/-- C2: a named field whose type holds two juxtaposed inline declarations
at the top level of its bracket tree (`k1 n1 {..} k2 n2 {..}` with
declaration keywords `k1`, `k2`) produces the "more than one declaration
found" marker followed by one parse-failure marker, and no declaration
from that field is lifted into the output. -/
theorem c2_ambiguous_nested (fuel : Nat) (f : NamedField) (comma : Option Tok)
    (strike : List Attribute) (inPub : Bool) (path : NameHints)
    (k1 k2 n1 n2 : String) (b1 b2 : List Tok)
    (hk1 : k1 = "struct" ∨ k1 = "enum" ∨ k1 = "union")
    (hk2 : k2 = "struct" ∨ k2 = "enum" ∨ k2 = "union")
    (hn1 : isDeclKw n1 = false) (hn2 : isDeclKw n2 = false)
    (hb1 : takeInnerAttrs b1 = ([], b1)) (hb2 : takeInnerAttrs b2 = ([], b2))
    (hty : f.ty = twoDeclToks k1 n1 k2 n2 b1 b2) :
    ∃ e, (namedStructFields (recurseThroughDefinition (fuel + 1)) [(f, comma)]
          strike inPub path).2 = [.error dupDeclMsg, .error e] ∧
      ∀ d, OutEntry.decl d ∉ (namedStructFields (recurseThroughDefinition (fuel + 1))
          [(f, comma)] strike inPub path).2 := by
  have hk1T : isDeclKw k1 = true := by rcases hk1 with rfl | rfl | rfl <;> rfl
  have hk2T : isDeclKw k2 = true := by rcases hk2 with rfl | rfl | rfl <;> rfl
  obtain ⟨e, he⟩ := recurseThroughDefinition_twoDecl fuel k1 k2 n1 n2 b1 b2 strike
    (isPlainPub f.visMarker || inPub) hk1 hk2 hn1 hn2 hb1 hb2
  have h1 : typeTree (twoDeclToks k1 n1 k2 n2 b1 b2) =
      ([.token (.ident k1), .token (.ident n1), .token (.group .brace b1),
        .token (.ident k2), .token (.ident n2), .token (.group .brace b2)], []) := rfl
  have hem : (namedStructFields (recurseThroughDefinition (fuel + 1)) [(f, comma)]
      strike inPub path).2 = [.error dupDeclMsg, .error e] := by
    simp only [namedStructFields, hty, h1]
    rw [show typeTreeFuel [TypeTree.token (.ident k1), .token (.ident n1),
      .token (.group .brace b1), .token (.ident k2), .token (.ident n2),
      .token (.group .brace b2)] = 20 + 1 from rfl]
    have hseg : ([TypeTree.token (.ident k1), .token (.ident n1),
        .token (.group .brace b1), .token (.ident k2), .token (.ident n2),
        .token (.group .brace b2)].takeWhile fun t => !isCommaTT t) =
        [TypeTree.token (.ident k1), .token (.ident n1), .token (.group .brace b1),
         .token (.ident k2), .token (.ident n2), .token (.group .brace b2)] := rfl
    have hdrop : ([TypeTree.token (.ident k1), .token (.ident n1),
        .token (.group .brace b1), .token (.ident k2), .token (.ident n2),
        .token (.group .brace b2)].dropWhile fun t => !isCommaTT t) = [] := rfl
    rw [recurseTypeList_single 20 _ _ _ _ _ _ hseg hdrop]
    rw [show (20 : Nat) = 19 + 1 from rfl]
    rw [recurseType_twoDecl 19 _ k1 k2 n1 n2 b1 b2 _ _ _ _ hk1T hn1 hk2T]
    rw [he]
    rfl
  exact ⟨e, hem, fun d => by rw [hem]; simp⟩

/-- Witness for C2 at the concrete field
`f: struct A {} struct B {}`. -/
theorem c2_ambiguous_nested_witness :
    (⟨[], none, "f", twoDeclToks "struct" "A" "struct" "B" [] []⟩ : NamedField).ty =
        twoDeclToks "struct" "A" "struct" "B" [] [] ∧
      ∃ e, (namedStructFields (recurseThroughDefinition 1)
            [(⟨[], none, "f", twoDeclToks "struct" "A" "struct" "B" [] []⟩, none)]
            [] false ⟨false, "Outer", none, none⟩).2 =
          [.error dupDeclMsg, .error e] ∧
        ∀ d, OutEntry.decl d ∉ (namedStructFields (recurseThroughDefinition 1)
            [(⟨[], none, "f", twoDeclToks "struct" "A" "struct" "B" [] []⟩, none)]
            [] false ⟨false, "Outer", none, none⟩).2 :=
  ⟨rfl, c2_ambiguous_nested 0
    ⟨[], none, "f", twoDeclToks "struct" "A" "struct" "B" [] []⟩
    none [] false ⟨false, "Outer", none, none⟩ "struct" "struct" "A" "B" [] []
    (Or.inl rfl) (Or.inl rfl) rfl rfl rfl rfl rfl⟩

/-! ## Claim C7: flattening without nested declarations is the identity

The cleanness predicates describe a type tree containing no declaration
keyword at any bracket level and no top-level-colon pattern at any
bracket level — exactly the trees on which the field scan finds nothing
to lift and nothing to report. -/

theorem cleanList_mem {tok : List TypeTree} (h : cleanList tok = true) :
    ∀ t ∈ tok, cleanTT t = true := by
  induction tok with
  | nil => intro t ht; cases ht
  | cons a rest ih =>
      simp only [cleanList, Bool.and_eq_true] at h
      intro t ht
      rcases List.mem_cons.mp ht with rfl | hm
      · exact h.1
      · exact ih h.2 t hm

theorem cleanList_append {a b : List TypeTree} (ha : cleanList a = true)
    (hb : cleanList b = true) : cleanList (a ++ b) = true := by
  induction a with
  | nil => simpa using hb
  | cons t rest ih =>
      simp only [cleanList, Bool.and_eq_true] at ha ⊢
      exact ⟨ha.1, by simpa using ih ha.2⟩

theorem cleanList_takeWhile {tok : List TypeTree} (p : TypeTree → Bool)
    (h : cleanList tok = true) : cleanList (tok.takeWhile p) = true := by
  induction tok with
  | nil => simpa using h
  | cons a rest ih =>
      simp only [cleanList, Bool.and_eq_true] at h
      simp only [List.takeWhile]
      cases p a
      · rfl
      · simp only [cleanList, Bool.and_eq_true]
        exact ⟨h.1, ih h.2⟩

theorem cleanList_dropWhile {tok : List TypeTree} (p : TypeTree → Bool)
    (h : cleanList tok = true) : cleanList (tok.dropWhile p) = true := by
  induction tok with
  | nil => simpa using h
  | cons a rest ih =>
      simp only [cleanList, Bool.and_eq_true] at h
      simp only [List.dropWhile]
      cases p a
      · simp only [cleanList, Bool.and_eq_true]
        exact ⟨h.1, h.2⟩
      · exact ih h.2

theorem cleanList_tail {t : TypeTree} {rest : List TypeTree}
    (h : cleanList (t :: rest) = true) : cleanList rest = true := by
  simp only [cleanList, Bool.and_eq_true] at h
  exact h.2

/-- A colon pattern inside a prefix is a colon pattern of the whole
list. -/
theorem hasColonPattern_append_left {a b : List TypeTree}
    (h : hasColonPattern a = true) : hasColonPattern (a ++ b) = true := by
  induction a with
  | nil => simp [hasColonPattern] at h
  | cons t0 rest ih =>
      match rest, h with
      | t1 :: t2 :: r, h =>
          simp only [hasColonPattern, Bool.or_eq_true] at h
          rcases h with h | h
          · simp only [List.cons_append, hasColonPattern, Bool.or_eq_true]
            exact Or.inl h
          · simp only [List.cons_append, hasColonPattern, Bool.or_eq_true]
            exact Or.inr (by simpa using ih (by simpa using h))
      | [], h => simp [hasColonPattern] at h
      | [t1], h => simp [hasColonPattern] at h

/-- A colon pattern inside a suffix is a colon pattern of the whole
list. -/
theorem hasColonPattern_cons {t : TypeTree} {l : List TypeTree}
    (h : hasColonPattern l = true) : hasColonPattern (t :: l) = true := by
  match l, h with
  | t1 :: t2 :: r, h =>
      simp only [hasColonPattern, Bool.or_eq_true]
      exact Or.inr h
  | [], h => simp [hasColonPattern] at h
  | [t1], h => simp [hasColonPattern] at h

theorem hasColonPattern_append_right {a b : List TypeTree}
    (h : hasColonPattern b = true) : hasColonPattern (a ++ b) = true := by
  induction a with
  | nil => simpa using h
  | cons t rest ih => exact hasColonPattern_cons ih

theorem hasColonPattern_takeWhile {tok : List TypeTree} (p : TypeTree → Bool)
    (h : hasColonPattern tok = false) :
    hasColonPattern (tok.takeWhile p) = false := by
  cases hc : hasColonPattern (tok.takeWhile p)
  · rfl
  · exfalso
    have := hasColonPattern_append_left (b := tok.dropWhile p) hc
    rw [List.takeWhile_append_dropWhile] at this
    rw [h] at this
    exact Bool.noConfusion this

theorem hasColonPattern_dropWhile {tok : List TypeTree} (p : TypeTree → Bool)
    (h : hasColonPattern tok = false) :
    hasColonPattern (tok.dropWhile p) = false := by
  cases hc : hasColonPattern (tok.dropWhile p)
  · rfl
  · exfalso
    have := hasColonPattern_append_right (a := tok.takeWhile p) hc
    rw [List.takeWhile_append_dropWhile] at this
    rw [h] at this
    exact Bool.noConfusion this

theorem hasColonPattern_tail {t : TypeTree} {l : List TypeTree}
    (h : hasColonPattern (t :: l) = false) : hasColonPattern l = false := by
  cases hc : hasColonPattern l
  · rfl
  · rw [hasColonPattern_cons hc] at h
    exact Bool.noConfusion h

/-- On a clean tree the keyword scan finds nothing (any accumulator). -/
theorem cleanList_findIdx?_aux {tok : List TypeTree} (h : cleanList tok = true) :
    ∀ i, (List.findIdx? (fun t => (getDeclIdent t).isSome) tok i) = none := by
  induction tok with
  | nil => intro i; rfl
  | cons t rest ih =>
      simp only [cleanList, Bool.and_eq_true] at h
      have ht : ((getDeclIdent t).isSome) = false := by
        cases t with
        | token tk =>
            cases tk with
            | ident s =>
                have : isDeclKwTok (.ident s) = false := by
                  simpa [cleanTT] using h.1
                simp [getDeclIdent, show isDeclKw s = false by simpa [isDeclKwTok] using this]
            | punct c j => rfl
            | group d g => rfl
            | lit s => rfl
        | group o g c => rfl
      intro i
      rw [List.findIdx?_cons, ht]
      simp only [Bool.false_eq_true, if_false]
      exact ih h.2 (i + 1)

/-- On a clean tree the keyword scan finds nothing. -/
theorem cleanList_findIdx? {tok : List TypeTree} (h : cleanList tok = true) :
    (tok.findIdx? fun t => (getDeclIdent t).isSome) = none :=
  cleanList_findIdx?_aux h 0

theorem ttWeight_pos (t : TypeTree) : 1 ≤ ttWeight t := by
  cases t <;> simp [ttWeight]

theorem ttListWeight_append (a b : List TypeTree) :
    ttListWeight (a ++ b) = ttListWeight a + ttListWeight b := by
  induction a with
  | nil => simp [ttListWeight]
  | cons t rest ih =>
      show ttWeight t + ttListWeight (rest ++ b) =
        ttWeight t + ttListWeight rest + ttListWeight b
      rw [ih]
      omega

theorem ttListWeight_take_drop (p : TypeTree → Bool) (l : List TypeTree) :
    ttListWeight (l.takeWhile p) + ttListWeight (l.dropWhile p) =
      ttListWeight l := by
  have h : ttListWeight (l.takeWhile p ++ l.dropWhile p) = ttListWeight l := by
    rw [List.takeWhile_append_dropWhile]
  rw [ttListWeight_append] at h
  exact h

theorem dropWhile_head_false {α} (p : α → Bool) (l : List α) {c : α} {r : List α}
    (h : l.dropWhile p = c :: r) : p c = false := by
  induction l with
  | nil => simp [List.dropWhile] at h
  | cons a t ih =>
      rw [List.dropWhile_cons] at h
      cases hpa : p a
      · rw [hpa] at h
        simp only [Bool.false_eq_true, if_false, List.cons.injEq] at h
        rw [← h.1]
        exact hpa
      · rw [hpa] at h
        simp only [if_true] at h
        exact ih h

/-- Clean type trees are rebuilt verbatim with no emissions, given
sufficient fuel, simultaneously for the three members of the mutual
recursion. -/
theorem cleanRebuild (fuel : Nat) :
    (∀ tok recDef strike nameHint pubHint path,
        3 * ttListWeight tok + 3 ≤ fuel → cleanList tok = true →
        hasColonPattern tok = false →
        recurseThroughTypeList fuel recDef tok strike nameHint pubHint path =
          (unTreeType tok, [])) ∧
    (∀ tok recDef strike nameHint pubHint path,
        3 * ttListWeight tok + 2 ≤ fuel → cleanList tok = true →
        hasColonPattern tok = false →
        recurseThroughType fuel recDef tok strike nameHint pubHint path =
          (unTreeType tok, [])) ∧
    (∀ tok recDef strike nameHint path,
        3 * ttListWeight tok + 1 ≤ fuel → cleanList tok = true →
        recurseGroups fuel recDef tok strike nameHint path =
          (unTreeType tok, [])) := by
  induction fuel using Nat.strong_induction_on with
  | _ fuel ih =>
    refine ⟨?_, ?_, ?_⟩
    · intro tok recDef strike nameHint pubHint path hfuel hclean hcolon
      cases fuel with
      | zero => omega
      | succ f =>
        have hf : f < f + 1 := Nat.lt_succ_self f
        have hsegW : ttListWeight (tok.takeWhile fun t => !isCommaTT t) ≤
            ttListWeight tok := by
          have h := ttListWeight_take_drop (fun t => !isCommaTT t) tok
          omega
        have hseg := (ih f hf).2.1 (tok.takeWhile fun t => !isCommaTT t) recDef
          strike nameHint pubHint path (by omega)
          (cleanList_takeWhile _ hclean) (hasColonPattern_takeWhile _ hcolon)
        cases hdrop : tok.dropWhile fun t => !isCommaTT t with
        | nil =>
            have htk : tok.takeWhile (fun t => !isCommaTT t) = tok := by
              have h : tok.takeWhile (fun t => !isCommaTT t) ++
                  tok.dropWhile (fun t => !isCommaTT t) = tok :=
                List.takeWhile_append_dropWhile _ _
              rw [hdrop, List.append_nil] at h
              exact h
            rw [htk] at hseg
            simp only [recurseThroughTypeList, hdrop, hseg, htk]
        | cons c rest' =>
            have hcomma : isCommaTT c = true := by
              have h := dropWhile_head_false _ _ hdrop
              simpa using h
            obtain ⟨cj, rfl⟩ : ∃ j, c = .token (.punct ',' j) := by
              cases c with
              | token t =>
                  cases t with
                  | punct ch j =>
                      have : ch = ',' := by simpa [isCommaTT] using hcomma
                      subst this
                      exact ⟨j, rfl⟩
                  | ident s => simp [isCommaTT] at hcomma
                  | group d g => simp [isCommaTT] at hcomma
                  | lit s => simp [isCommaTT] at hcomma
              | group o g cl => simp [isCommaTT] at hcomma
            have hrestW : ttListWeight rest' + 1 ≤ ttListWeight tok := by
              have h := ttListWeight_take_drop (fun t => !isCommaTT t) tok
              rw [hdrop] at h
              simp only [ttListWeight, ttWeight] at h
              omega
            have hcleanD := cleanList_dropWhile (fun t => !isCommaTT t) hclean
            rw [hdrop] at hcleanD
            have hcolD := hasColonPattern_dropWhile (fun t => !isCommaTT t) hcolon
            rw [hdrop] at hcolD
            have hrest := (ih f hf).1 rest' recDef strike nameHint pubHint path
              (by omega) (cleanList_tail hcleanD) (hasColonPattern_tail hcolD)
            have htok : (tok.takeWhile fun t => !isCommaTT t) ++
                (TypeTree.token (.punct ',' cj) :: rest') = tok := by
              have h : tok.takeWhile (fun t => !isCommaTT t) ++
                  tok.dropWhile (fun t => !isCommaTT t) = tok :=
                List.takeWhile_append_dropWhile _ _
              rw [hdrop] at h
              exact h
            simp only [recurseThroughTypeList, hdrop, hseg, hrest]
            conv_rhs => rw [← htok]
            rw [unTreeType_append]
            simp [unTreeType, unTreeTypeOne]
    · intro tok recDef strike nameHint pubHint path hfuel hclean hcolon
      cases fuel with
      | zero => omega
      | succ f =>
        have hf : f < f + 1 := Nat.lt_succ_self f
        have hgroups := (ih f hf).2.2 tok recDef strike nameHint path
          (by omega) hclean
        simp only [recurseThroughType, hcolon, Bool.false_eq_true, if_false,
          cleanList_findIdx? hclean, hgroups]
        rfl
    · intro tok recDef strike nameHint path hfuel hclean
      cases fuel with
      | zero => omega
      | succ f =>
        have hf : f < f + 1 := Nat.lt_succ_self f
        cases tok with
        | nil => simp [recurseGroups, unTreeType]
        | cons t rest =>
          cases t with
          | group o g c =>
              simp only [cleanList, cleanTT, Bool.and_eq_true] at hclean
              obtain ⟨⟨hgcol, hgclean⟩, hrclean⟩ := hclean
              have hWexp : ttListWeight (TypeTree.group o g c :: rest) =
                  (1 + ttListWeight g) + ttListWeight rest := rfl
              rw [hWexp] at hfuel
              have hG := (ih f hf).1 g recDef strike nameHint false path
                (by omega) hgclean (by simpa using hgcol)
              have hR := (ih f hf).2.2 rest recDef strike nameHint path
                (by omega) hrclean
              simp only [recurseGroups, hG, hR]
              simp [unTreeType, unTreeTypeOne]
          | token tk =>
              have hWexp : ttListWeight (TypeTree.token tk :: rest) =
                  1 + ttListWeight rest := rfl
              rw [hWexp] at hfuel
              have hR := (ih f hf).2.2 rest recDef strike nameHint path
                (by omega) (cleanList_tail hclean)
              simp only [recurseGroups, hR]
              simp [unTreeType, unTreeTypeOne]

/-- The clean-rebuild lemma at the fuel actually supplied by the field
walkers. -/
theorem cleanRebuild_typeList (recDef : RecDef) (tok : List TypeTree)
    (strike : List Attribute) (nameHint : Option String) (pubHint : Bool)
    (path : NameHints) (hclean : cleanTop tok = true) :
    recurseThroughTypeList (typeTreeFuel tok) recDef tok strike nameHint
      pubHint path = (unTreeType tok, []) := by
  simp only [cleanTop, Bool.and_eq_true] at hclean
  exact (cleanRebuild (typeTreeFuel tok)).1 tok recDef strike nameHint pubHint
    path (Nat.le_refl _) hclean.2 (by simpa using hclean.1)

/-- Cleanness of a named-field (or type-alias initializer) type: the
tokenizer reports no bracket errors and the resulting tree is clean. -/
theorem unTreeType_map_token (l : List Tok) :
    unTreeType (l.map TypeTree.token) = l := by
  induction l with
  | nil => rfl
  | cons t rest ih => simp [unTreeType, unTreeTypeOne, ih]

theorem tupleFieldTransfer_toToks (f : TupleField) :
    (tupleFieldTransfer f).toToks = f.toToks := by
  unfold tupleFieldTransfer
  by_cases hpub : hasTopPub (typeTree f.ty).1 = true
  · rw [if_pos hpub]
  · rw [if_neg hpub]
    cases hvis : f.visMarker with
    | none => rfl
    | some v =>
        simp [TupleField.toToks, hvis, visToks]

/-- `named_struct_fields` on clean fields rebuilds every field verbatim
and emits nothing. -/
theorem namedStructFields_clean (recDef : RecDef)
    (n : List (NamedField × Option Tok)) (strike : List Attribute)
    (inPub : Bool) (path : NameHints)
    (h : ∀ fc ∈ n, cleanFieldTy fc.1.ty = true) :
    namedStructFields recDef n strike inPub path = (n, []) := by
  induction n generalizing path with
  | nil => rfl
  | cons fc rest ih =>
      obtain ⟨field, comma⟩ := fc
      have hf := h (field, comma) (List.mem_cons_self _ _)
      simp only [cleanFieldTy, Bool.and_eq_true, List.isEmpty_iff] at hf
      obtain ⟨herrs, hcleanT⟩ := hf
      have hrest := ih path fun fc hm => h fc (List.mem_cons_of_mem _ hm)
      cases hT : typeTree field.ty with
      | mk tt terrs =>
        rw [hT] at herrs hcleanT
        have hrebuild := cleanRebuild_typeList recDef tt strike
          (some ((path.withFieldName (stripRawPfx field.name)).getNameHint none))
          (isPlainPub field.visMarker || inPub)
          (path.withFieldName (stripRawPfx field.name)) hcleanT
        have hun : unTreeType tt = field.ty := by
          have h2 := unTreeType_typeTree field.ty
          rw [hT] at h2
          exact h2
        simp only [namedStructFields, hT, hrebuild, hrest, herrs, hun]
        rfl

/-- `tuple_struct_fields` on clean fields: every field is rebuilt
verbatim up to the visibility-transfer hack, nothing is emitted. -/
theorem tupleStructFieldsAux_clean (recDef : RecDef)
    (t : List (TupleField × Option Tok)) (strike : List Attribute)
    (inPub : Bool) (path : NameHints) (num : Nat)
    (h : ∀ fc ∈ t, cleanTupleFieldTy fc.1 = true) :
    tupleStructFieldsAux recDef t strike inPub path num =
      (t.map fun fc => (tupleFieldTransfer fc.1, fc.2), []) := by
  induction t generalizing num with
  | nil => rfl
  | cons fc rest ih =>
      obtain ⟨field, comma⟩ := fc
      have hf := h (field, comma) (List.mem_cons_self _ _)
      simp only [cleanTupleFieldTy, Bool.and_eq_true, List.isEmpty_iff] at hf
      obtain ⟨herrs, hcleanT⟩ := hf
      have hrest := ih (num + 1) fun fc hm => h fc (List.mem_cons_of_mem _ hm)
      cases hT : typeTree field.ty with
      | mk tt terrs =>
        rw [hT] at herrs
        have hun : unTreeType tt = field.ty := by
          have h2 := unTreeType_typeTree field.ty
          rw [hT] at h2
          exact h2
        by_cases hpub : hasTopPub tt = true
        · have htree : tupleFieldTree field = tt := by
            simp only [tupleFieldTree, hT, hpub, if_true]
          rw [htree] at hcleanT
          have hrebuild := cleanRebuild_typeList recDef tt strike
            (some (path.getNameHint (some num)))
            (isPlainPub field.visMarker || inPub) path hcleanT
          have htrans : tupleFieldTransfer field = field := by
            simp only [tupleFieldTransfer, hT, hpub, if_true]
          simp only [tupleStructFieldsAux, hT, hpub, if_true, hrebuild, hrest,
            herrs, hun, List.map_cons, htrans]
          rfl
        · have hpubF : hasTopPub tt = false := by simpa using hpub
          cases hvis : field.visMarker with
          | some v =>
              have htree : tupleFieldTree field =
                  (visToks (some v)).map TypeTree.token ++ tt := by
                simp only [tupleFieldTree, hT, hpubF, Bool.false_eq_true,
                  if_false, hvis]
              rw [htree] at hcleanT
              have hrebuild := cleanRebuild_typeList recDef
                ((visToks (some v)).map TypeTree.token ++ tt) strike
                (some (path.getNameHint (some num)))
                (isPlainPub (none : Option VisMarker) || inPub) path hcleanT
              have htrans : tupleFieldTransfer field =
                  ⟨field.attributes, none, visToks (some v) ++ field.ty⟩ := by
                simp only [tupleFieldTransfer, hT, hpubF, Bool.false_eq_true,
                  if_false, hvis]
              simp only [tupleStructFieldsAux, hT, hpubF, hvis,
                Bool.false_eq_true, if_false, hrebuild, hrest, herrs,
                List.map_cons, htrans]
              rw [unTreeType_append, unTreeType_map_token, hun]
              rfl
          | none =>
              have htree : tupleFieldTree field = tt := by
                simp only [tupleFieldTree, hT, hpubF, Bool.false_eq_true,
                  if_false, hvis]
              rw [htree] at hcleanT
              have hrebuild := cleanRebuild_typeList recDef tt strike
                (some (path.getNameHint (some num)))
                (isPlainPub (none : Option VisMarker) || inPub) path hcleanT
              have htrans : tupleFieldTransfer field = field := by
                simp only [tupleFieldTransfer, hT, hpubF, Bool.false_eq_true,
                  if_false, hvis]
              simp only [tupleStructFieldsAux, hT, hpubF, hvis,
                Bool.false_eq_true, if_false, hrebuild, hrest, herrs, hun,
                List.map_cons, htrans]
              rw [show ({ field with ty := field.ty, visMarker := none } :
                TupleField) = field by rw [← hvis]]
              rfl

/-- The struct body after one clean pass: named/unit fields unchanged,
tuple fields after the visibility transfer. -/
theorem tupleFieldsToks_transfer (t : List (TupleField × Option Tok)) :
    tupleFieldsToks (t.map fun fc => (tupleFieldTransfer fc.1, fc.2)) =
      tupleFieldsToks t := by
  induction t with
  | nil => rfl
  | cons fc rest ih =>
      simp only [List.map_cons, tupleFieldsToks, List.flatMap_cons,
        tupleFieldTransfer_toToks]
      simp only [tupleFieldsToks] at ih
      rw [ih]

theorem processedFields_toToks (fields : StructFields) :
    (processedFields fields).toToks = fields.toToks := by
  cases fields with
  | unit => rfl
  | named n => rfl
  | tuple t =>
      simp only [processedFields, StructFields.toToks,
        tupleFieldsToks_transfer]

theorem recurseThroughStructFields_clean (recDef : RecDef)
    (fields : StructFields) (strike : List Attribute) (inPub : Bool)
    (path : NameHints) (h : cleanFields fields = true) :
    recurseThroughStructFields recDef fields strike inPub path =
      (processedFields fields, []) := by
  cases fields with
  | unit => rfl
  | named n =>
      have hn := List.all_eq_true.mp h
      simp only [recurseThroughStructFields,
        namedStructFields_clean recDef n strike inPub path hn]
      rfl
  | tuple t =>
      have ht := List.all_eq_true.mp h
      simp only [recurseThroughStructFields, tupleStructFields,
        tupleStructFieldsAux_clean recDef t strike inPub path 0 ht]
      rfl

/-- A recognized marker attribute: `structstruck::each`,
`structstruck::long_names`, or bare `strikethrough`. -/
theorem isMarkerAttr_false {a : Attribute} (h : isMarkerAttr a = false) :
    checkCrateAttr a "each" = false ∧ checkCrateAttr a "long_names" = false ∧
      (match a.path with
       | [.ident kw] => kw == "strikethrough"
       | _ => false) = false := by
  simp only [isMarkerAttr, Bool.or_eq_false_iff] at h
  exact ⟨h.1.1, h.1.2, h.2⟩

theorem strikeWorker_noMarkers {attrs : List Attribute}
    (h : noMarkers attrs = true) : strikeWorker attrs = (attrs, [], []) := by
  induction attrs with
  | nil => rfl
  | cons a rest ih =>
      simp only [noMarkers, List.all_cons, Bool.and_eq_true] at h
      have ha := isMarkerAttr_false (by simpa using h.1)
      have hrest := ih h.2
      simp only [strikeWorker, ha.1, ha.2.2, hrest, Bool.or_false,
        Bool.false_eq_true, if_false]
      rfl

theorem strikeThroughAttributes_noMarkers {attrs : List Attribute}
    (h : noMarkers attrs = true) :
    strikeThroughAttributes attrs [] = (attrs, [], []) := by
  simp only [strikeThroughAttributes, strikeWorker_noMarkers h]
  rfl

theorem fromAttrs_noMarkers (name : String) {attrs : List Attribute}
    (h : noMarkers attrs = true) :
    NameHints.fromAttrs name attrs = (⟨false, name, none, none⟩, attrs) := by
  have hmem : ∀ a ∈ attrs, checkCrateAttr a "long_names" = false := by
    intro a ha
    have := List.all_eq_true.mp h a ha
    exact (isMarkerAttr_false (by simpa using this)).2.1
  have hany : (attrs.any fun a => checkCrateAttr a "long_names") = false := by
    rw [List.any_eq_false]
    intro a ha
    simp [hmem a ha]
  have hfilter : (attrs.filter fun a => !checkCrateAttr a "long_names") = attrs := by
    rw [List.filter_eq_self]
    intro a ha
    simp [hmem a ha]
  simp only [NameHints.fromAttrs, hany, hfilter]

theorem structProcess_clean (recDef : RecDef) (s : StructDecl)
    (hm : noMarkers s.attributes = true) (hf : cleanFields s.fields = true)
    (hsemi : (match s.fields with
              | .tuple _ => s.tkSemicolon.isSome
              | _ => true) = true) :
    structProcess recDef s [] false =
      (⟨s.attributes, s.visMarker, s.name, s.genericParams,
        processedFields s.fields, s.tkSemicolon⟩, []) := by
  have hsemiEq : (match processedFields s.fields with
      | .tuple _ => some (s.tkSemicolon.getD (.punct ';' false))
      | _ => s.tkSemicolon) = s.tkSemicolon := by
    cases hfld : s.fields with
    | unit => rfl
    | named n => rfl
    | tuple t =>
        rw [hfld] at hsemi
        obtain ⟨x, hx⟩ := Option.isSome_iff_exists.mp hsemi
        rw [hx]
        rfl
  simp only [structProcess, strikeThroughAttributes_noMarkers hm,
    fromAttrs_noMarkers s.name hm,
    recurseThroughStructFields_clean recDef s.fields []
      false ⟨false, s.name, none, none⟩ hf,
    Bool.false_eq_true, if_false, hsemiEq]
  rfl

theorem enumVariantsWorker_clean (recDef : RecDef)
    (vs : List (EnumVariant × Option Tok)) (strike : List Attribute)
    (inPub : Bool) (path : NameHints)
    (h : ∀ vc ∈ vs, cleanFields vc.1.contents = true) :
    enumVariantsWorker recDef vs strike inPub path =
      (vs.map fun vc =>
        ({ vc.1 with contents := processedFields vc.1.contents }, vc.2), []) := by
  induction vs with
  | nil => rfl
  | cons vc rest ih =>
      obtain ⟨v, comma⟩ := vc
      have hv := h (v, comma) (List.mem_cons_self _ _)
      have hrest := ih fun vc hm => h vc (List.mem_cons_of_mem _ hm)
      simp only [enumVariantsWorker, recurseThroughStructFields_clean recDef
        v.contents strike inPub (path.withVariantName v.name) hv, hrest,
        List.map_cons]
      rfl

theorem enumVariantsToks_processed (vs : List (EnumVariant × Option Tok)) :
    enumVariantsToks (vs.map fun vc =>
        ({ vc.1 with contents := processedFields vc.1.contents }, vc.2)) =
      enumVariantsToks vs := by
  induction vs with
  | nil => rfl
  | cons vc rest ih =>
      simp only [List.map_cons, enumVariantsToks, List.flatMap_cons,
        EnumVariant.toToks, processedFields_toToks]
      simp only [enumVariantsToks, EnumVariant.toToks] at ih
      rw [ih]

theorem enumProcess_clean (recDef : RecDef) (e : EnumDecl)
    (hm : noMarkers e.attributes = true)
    (hv : (e.variants.all fun vc => cleanFields vc.1.contents) = true) :
    enumProcess recDef e [] false =
      (⟨e.attributes, e.visMarker, e.name, e.genericParams,
        e.variants.map fun vc =>
          ({ vc.1 with contents := processedFields vc.1.contents }, vc.2)⟩,
        []) := by
  simp only [enumProcess, strikeThroughAttributes_noMarkers hm,
    fromAttrs_noMarkers e.name hm,
    enumVariantsWorker_clean recDef e.variants [] (isPlainPub e.visMarker)
      ⟨false, e.name, none, none⟩ (List.all_eq_true.mp hv),
    Bool.false_eq_true, if_false]
  rfl

theorem unionProcess_clean (recDef : RecDef) (u : UnionDecl)
    (hm : noMarkers u.attributes = true)
    (hf : (u.fields.all fun fc => cleanFieldTy fc.1.ty) = true) :
    unionProcess recDef u [] false = (u, []) := by
  simp only [unionProcess, strikeThroughAttributes_noMarkers hm,
    fromAttrs_noMarkers u.name hm,
    namedStructFields_clean recDef u.fields [] false ⟨false, u.name, none, none⟩
      (List.all_eq_true.mp hf),
    Bool.false_eq_true, if_false]
  rfl

theorem tyDefProcess_clean (recDef : RecDef) (t : TyDefinition)
    (hm : noMarkers t.attributes = true)
    (hcl : cleanFieldTy t.initializerTy = true) :
    tyDefProcess recDef t [] false = (t, []) := by
  simp only [cleanFieldTy, Bool.and_eq_true, List.isEmpty_iff] at hcl
  obtain ⟨herrs, hcleanT⟩ := hcl
  cases hT : typeTree t.initializerTy with
  | mk tt terrs =>
      rw [hT] at herrs hcleanT
      have herrs' : terrs = [] := herrs
      have hcleanT' : cleanTop tt = true := hcleanT
      have hrebuild := cleanRebuild_typeList recDef tt [] none false
        ⟨false, t.name, none, none⟩ hcleanT'
      have hun : unTreeType tt = t.initializerTy := by
        have h2 := unTreeType_typeTree t.initializerTy
        rw [hT] at h2
        exact h2
      simp only [tyDefProcess, strikeThroughAttributes_noMarkers hm,
        fromAttrs_noMarkers t.name hm, hT, hrebuild, herrs', hun,
        Bool.false_eq_true, if_false]
      rfl

/-- The C7 hypothesis on a parsed declaration: no recognized marker
attributes anywhere relevant, every field type bracket-balanced and free
of nested declarations, and (for tuple structs) an explicit trailing
semicolon. -/
theorem c7_flatten_identity (fuel : Nat) (ts : List Tok) (d : Declaration)
    (hparse : parseDeclaration (moveOutInnerAttrs
      (hackAppendTypeDeclSemicolon ts)) = .ok d)
    (hprint : d.toToks = ts) (hclean : cleanDecl d = true) :
    ∃ d', recurseThroughDefinition (fuel + 1) ts [] false =
        (d.genericParams, [.decl d']) ∧ Declaration.toToks d' = ts := by
  cases d with
  | structD s =>
      simp only [cleanDecl, Bool.and_eq_true] at hclean
      obtain ⟨⟨hm, hf⟩, hsemi⟩ := hclean
      refine ⟨.structD ⟨s.attributes, s.visMarker, s.name, s.genericParams,
        processedFields s.fields, s.tkSemicolon⟩, ?_, ?_⟩
      · simp only [recurseThroughDefinition, hparse,
          structProcess_clean (recurseThroughDefinition fuel) s hm hf hsemi]
        rfl
      · rw [← hprint]
        simp only [Declaration.toToks, StructDecl.toToks, processedFields_toToks]
  | enumD e =>
      simp only [cleanDecl, Bool.and_eq_true] at hclean
      obtain ⟨hm, hv⟩ := hclean
      refine ⟨.enumD ⟨e.attributes, e.visMarker, e.name, e.genericParams,
        e.variants.map fun vc =>
          ({ vc.1 with contents := processedFields vc.1.contents }, vc.2)⟩,
        ?_, ?_⟩
      · simp only [recurseThroughDefinition, hparse,
          enumProcess_clean (recurseThroughDefinition fuel) e hm hv]
        rfl
      · rw [← hprint]
        simp only [Declaration.toToks, EnumDecl.toToks,
          enumVariantsToks_processed]
  | unionD u =>
      simp only [cleanDecl, Bool.and_eq_true] at hclean
      obtain ⟨hm, hf⟩ := hclean
      refine ⟨.unionD u, ?_, hprint⟩
      simp only [recurseThroughDefinition, hparse,
        unionProcess_clean (recurseThroughDefinition fuel) u hm hf]
      rfl
  | tyDef t =>
      simp only [cleanDecl, Bool.and_eq_true] at hclean
      obtain ⟨hm, hcl⟩ := hclean
      refine ⟨.tyDef t, ?_, hprint⟩
      simp only [recurseThroughDefinition, hparse,
        tyDefProcess_clean (recurseThroughDefinition fuel) t hm hcl]
      rfl
  | other => simp [cleanDecl] at hclean

/-- Witness for C7 at `struct Foo { x : u32 }`: all three hypotheses hold
and the flattener reproduces the declaration exactly. -/
theorem c7_flatten_identity_witness :
    (parseDeclaration (moveOutInnerAttrs (hackAppendTypeDeclSemicolon exC7)) =
        .ok exC7Decl ∧
      Declaration.toToks exC7Decl = exC7 ∧ cleanDecl exC7Decl = true) ∧
    ∃ d', recurseThroughDefinition (0 + 1) exC7 [] false =
        (Declaration.genericParams exC7Decl, [.decl d']) ∧
      Declaration.toToks d' = exC7 :=
  ⟨⟨rfl, rfl, rfl⟩, c7_flatten_identity 0 exC7 exC7Decl rfl rfl rfl⟩


end Structstruck
